import Mathlib

/-!
Verification of the history-accumulation engine of the spotify-stats-panel
repository.  The TypeScript source is shallowly embedded: each definition
below mirrors one function of the source (file and function named in its
doc comment).  Strings are modelled by `String` / `List Char`, JavaScript
numbers by `Nat`, and the persistent CSV file by the `String` holding its
contents.
-/

set_option maxHeartbeats 1000000
set_option maxRecDepth 100000

namespace SpotifyStats

/-! ## CSV line parsing and escaping (server/csvUtils.ts) -/

/-- Worker for `parseCSVLine` (server/csvUtils.ts, `parseCSVLine`): one step
per character of the loop `for (let i = 0; i < line.length; i++)`, carrying
the mutable `inQuotes`, `current` and `result` variables.  The two-character
case consumes the lookahead `nextChar === '"'` together with the current
quote, matching `current += '"'; i++`. -/
def parseAux : List Char → Bool → List Char → List (List Char) → List (List Char)
  | [], _, current, result => result ++ [current]
  | c :: rest, inQuotes, current, result =>
    if c = '"' then
      if inQuotes then
        match rest with
        | '"' :: rest2 => parseAux rest2 true (current ++ ['"']) result
        | r => parseAux r false current result
      else parseAux rest true current result
    else if c = ',' then
      if inQuotes then parseAux rest inQuotes (current ++ [c]) result
      else parseAux rest inQuotes [] (result ++ [current])
    else
      parseAux rest inQuotes (current ++ [c]) result

/-- Embeds `parseCSVLine` (server/csvUtils.ts): splits one CSV line into its
fields, honouring quoted fields and doubled quotes. -/
def parseCSVLine (line : String) : List String :=
  (parseAux line.data false [] []).map String.mk

/-- Embeds `field.replace(/"/g, '""')` as used by `escapeCSV`
(server/csvUtils.ts): every quote character is doubled. -/
def doubleQuotes : List Char → List Char
  | [] => []
  | c :: rest => if c = '"' then '"' :: '"' :: doubleQuotes rest else c :: doubleQuotes rest

/-- The test `field.includes(',') || field.includes('"') || field.includes('\n')`
of `escapeCSV` (server/csvUtils.ts). -/
def needsQuoting (f : List Char) : Bool :=
  decide (',' ∈ f) || decide ('"' ∈ f) || decide ('\n' ∈ f)

/-- Worker for `escapeCSV` on character lists. -/
def encodeField (f : List Char) : List Char :=
  if needsQuoting f then '"' :: doubleQuotes f ++ ['"'] else f

/-- Embeds `escapeCSV` (server/csvUtils.ts): a field containing a comma,
quote or newline is wrapped in quotes with inner quotes doubled. -/
def escapeCSV (field : String) : String :=
  String.mk (encodeField field.data)

/-- Embeds `Array.prototype.join(',')` on character lists, as used to build
one CSV line in `addTracksToCSVFile`. -/
def joinComma : List (List Char) → List Char
  | [] => []
  | [f] => f
  | f :: g :: rest => f ++ ',' :: joinComma (g :: rest)

/-- Embeds `Array.prototype.join(sep)` at the `String` level. -/
def joinWith (sep : String) : List String → String
  | [] => ""
  | [f] => f
  | f :: g :: rest => f ++ sep ++ joinWith sep (g :: rest)

/-! ### Step lemmas for `parseAux` -/

theorem parseAux_nil (b : Bool) (cur : List Char) (acc : List (List Char)) :
    parseAux [] b cur acc = acc ++ [cur] := by
  rw [parseAux.eq_def]

theorem parseAux_other (c : Char) (rest : List Char) (b : Bool) (cur : List Char)
    (acc : List (List Char)) (hq : c ≠ '"') (hc : c ≠ ',') :
    parseAux (c :: rest) b cur acc = parseAux rest b (cur ++ [c]) acc := by
  cases b <;> (rw [parseAux.eq_def]; simp [hq, hc])

theorem parseAux_comma_false (rest : List Char) (cur : List Char) (acc : List (List Char)) :
    parseAux (',' :: rest) false cur acc = parseAux rest false [] (acc ++ [cur]) := by
  rw [parseAux.eq_def]
  rfl

theorem parseAux_comma_true (rest : List Char) (cur : List Char) (acc : List (List Char)) :
    parseAux (',' :: rest) true cur acc = parseAux rest true (cur ++ [',']) acc := by
  rw [parseAux.eq_def]
  rfl

theorem parseAux_quote_false (rest : List Char) (cur : List Char) (acc : List (List Char)) :
    parseAux ('"' :: rest) false cur acc = parseAux rest true cur acc := by
  rw [parseAux.eq_def]
  rfl

theorem parseAux_quote_true_quote (rest : List Char) (cur : List Char)
    (acc : List (List Char)) :
    parseAux ('"' :: '"' :: rest) true cur acc = parseAux rest true (cur ++ ['"']) acc := by
  rw [parseAux.eq_def]
  rfl

theorem parseAux_quote_true_other (rest : List Char) (cur : List Char)
    (acc : List (List Char)) (hs : rest.head? ≠ some '"') :
    parseAux ('"' :: rest) true cur acc = parseAux rest false cur acc := by
  cases rest with
  | nil => rfl
  | cons c2 t =>
    have hc2 : c2 ≠ '"' := by
      intro h
      exact hs (by simp [h])
    rw [parseAux.eq_def]
    simp only [if_pos rfl, reduceIte]
    split
    · next r rest2 heq => exact absurd (List.cons.inj heq).1 hc2
    · rfl

/-! ### Round-trip lemmas -/

theorem parseAux_append_safe (f : List Char) (s : List Char) (cur : List Char)
    (acc : List (List Char)) (hf : ∀ c ∈ f, c ≠ '"' ∧ c ≠ ',') :
    parseAux (f ++ s) false cur acc = parseAux s false (cur ++ f) acc := by
  induction f generalizing cur with
  | nil => simp
  | cons c t ih =>
    obtain ⟨hq, hc⟩ := hf c (by simp)
    have ht : ∀ c ∈ t, c ≠ '"' ∧ c ≠ ',' := fun c hct => hf c (by simp [hct])
    rw [List.cons_append, parseAux_other c _ false cur acc hq hc, ih (cur ++ [c]) ht,
      List.append_assoc]
    rfl

theorem parseAux_doubleQuotes (f : List Char) (s : List Char) (cur : List Char)
    (acc : List (List Char)) :
    parseAux (doubleQuotes f ++ s) true cur acc = parseAux s true (cur ++ f) acc := by
  induction f generalizing cur with
  | nil => simp [doubleQuotes]
  | cons c t ih =>
    by_cases hq : c = '"'
    · subst hq
      rw [show doubleQuotes ('"' :: t) = '"' :: '"' :: doubleQuotes t by simp [doubleQuotes],
        List.cons_append, List.cons_append, parseAux_quote_true_quote, ih (cur ++ ['"']),
        List.append_assoc]
      rfl
    · rw [show doubleQuotes (c :: t) = c :: doubleQuotes t by simp [doubleQuotes, hq],
        List.cons_append]
      by_cases hc : c = ','
      · subst hc
        rw [parseAux_comma_true, ih (cur ++ [',']), List.append_assoc]
        rfl
      · rw [parseAux_other c _ true cur acc hq hc, ih (cur ++ [c]), List.append_assoc]
        rfl

theorem parseAux_encodeField (f : List Char) (s : List Char) (cur : List Char)
    (acc : List (List Char)) (hs : s.head? ≠ some '"') :
    parseAux (encodeField f ++ s) false cur acc = parseAux s false (cur ++ f) acc := by
  by_cases hq : needsQuoting f
  · rw [show encodeField f = '"' :: (doubleQuotes f ++ ['"']) from if_pos hq, List.cons_append,
      List.append_assoc, List.singleton_append, parseAux_quote_false, parseAux_doubleQuotes,
      parseAux_quote_true_other s (cur ++ f) acc hs]
  · have hf : ∀ c ∈ f, c ≠ '"' ∧ c ≠ ',' := by
      intro c hcf
      simp only [needsQuoting, Bool.or_eq_true, decide_eq_true_eq] at hq
      push_neg at hq
      exact ⟨fun h => hq.1.2 (h ▸ hcf), fun h => hq.1.1 (h ▸ hcf)⟩
    rw [show encodeField f = f from if_neg hq]
    exact parseAux_append_safe f s cur acc hf

/-- One encoded line parses back to its fields, for any nonempty field list. -/
theorem parseAux_joinComma_encode (fs : List (List Char)) (acc : List (List Char))
    (hne : fs ≠ []) :
    parseAux (joinComma (fs.map encodeField)) false [] acc = acc ++ fs := by
  induction fs generalizing acc with
  | nil => exact absurd rfl hne
  | cons f t ih =>
    cases t with
    | nil =>
      have := parseAux_encodeField f [] [] acc (by simp)
      simpa [joinComma, parseAux_nil] using this
    | cons g u =>
      have hhead : (',' :: joinComma (List.map encodeField (g :: u))).head? ≠ some '"' := by
        simp
      rw [show joinComma (List.map encodeField (f :: g :: u)) =
          encodeField f ++ ',' :: joinComma (List.map encodeField (g :: u)) by
            simp [joinComma],
        parseAux_encodeField f _ [] acc hhead, List.nil_append, parseAux_comma_false,
        ih (acc ++ [f]) (by simp)]
      simp

theorem joinWith_comma_data (l : List String) :
    (joinWith "," l).data = joinComma (l.map String.data) := by
  induction l with
  | nil => rfl
  | cons f t ih =>
    cases t with
    | nil => rfl
    | cons g u =>
      show (f ++ "," ++ joinWith "," (g :: u)).data = _
      rw [String.data_append, String.data_append, ih,
        show ",".data = [','] from rfl, show ∀ x y, List.map String.data (f :: x :: y) =
          f.data :: List.map String.data (x :: y) from fun _ _ => rfl]
      simp [joinComma]

/-! ## The event store: a CSV file of play events (server/csvUtils.ts,
server/csvStorage.ts) -/

/-- Embeds `String.prototype.split('\n')` on character lists: JavaScript
split never returns an empty array, and a trailing separator produces a
trailing empty piece. -/
def splitNl : List Char → List (List Char)
  | [] => [[]]
  | c :: rest =>
    if c = '\n' then [] :: splitNl rest
    else
      match splitNl rest with
      | l :: ls => (c :: l) :: ls
      | [] => [[c]]

/-- Embeds `String.prototype.trimEnd` on character lists. -/
def dropTrailingWS (l : List Char) : List Char :=
  (l.reverse.dropWhile Char.isWhitespace).reverse

/-- Embeds `String.prototype.trim` on character lists. -/
def trimChars (l : List Char) : List Char :=
  dropTrailingWS (l.dropWhile Char.isWhitespace)

/-- Embeds the truthiness filter `lines.filter(line => line.trim())` applied
to the pieces of `content.split('\n')`. -/
def csvLines (content : String) : List (List Char) :=
  (splitNl content.data).filter (fun l => !(trimChars l).isEmpty)

/-- Fuel-driven worker for `natChars`; the fuel only bounds the digit
count, one unit per division by ten. -/
def natCharsAux : Nat → Nat → List Char
  | 0, _ => []
  | fuel + 1, n =>
    if n < 10 then [Nat.digitChar n]
    else natCharsAux fuel (n / 10) ++ [Nat.digitChar (n % 10)]

/-- Embeds `Number.prototype.toString()` for the integer `durationMs` and
`popularity` values: decimal digits, most significant first. -/
def natChars (n : Nat) : List Char := natCharsAux (n + 1) n

/-- The track payload used by `addTracksToCSVFile` (server/csvUtils.ts):
`track.id`, `track.name`, the artist names, `track.album.name`,
`track.duration_ms` and `track.popularity`. -/
structure Track where
  id : String
  name : String
  artists : List String
  album : String
  duration_ms : Nat
  popularity : Nat

/-- One element of the `tracks` batch: `item.track` plus `item.played_at`.
An empty `played_at` models a missing/falsy value (JavaScript `||`). -/
structure PlayItem where
  track : Track
  played_at : String

/-- Embeds `item.played_at || new Date().toISOString()`; `now` is the
ambient clock value supplied to the model. -/
def resolvedPlayedAt (now : String) (item : PlayItem) : String :=
  if item.played_at = "" then now else item.played_at

/-- Embeds `new Date(playedAt).toISOString().split('T')[0]` for timestamps
already in ISO-8601 UTC millisecond form (the shape upstream reports). -/
def dateOf (playedAt : String) : String :=
  String.mk (playedAt.data.takeWhile (fun c => c ≠ 'T'))

/-- The dedup key `` `${track.id}-${playedAt}` `` of `addTracksToCSVFile`. -/
def keyOfItem (now : String) (item : PlayItem) : List Char :=
  item.track.id.data ++ '-' :: (resolvedPlayedAt now item).data

/-- The CSV line `[date, track.id, escapeCSV(track.name), ...].join(',')`
written by `addTracksToCSVFile` for one new event. -/
def lineOfItem (now : String) (item : PlayItem) : List Char :=
  joinComma [(dateOf (resolvedPlayedAt now item)).data,
    item.track.id.data,
    encodeField item.track.name.data,
    encodeField (joinWith "; " item.track.artists).data,
    encodeField item.track.album.data,
    natChars item.track.duration_ms,
    natChars item.track.popularity,
    (resolvedPlayedAt now item).data]

/-- Embeds the key extraction `fields.length >= 8 ? `${fields[1]}-${fields[7]}`
: null` applied to one stored line. -/
def keyOfLine (l : List Char) : Option (List Char) :=
  let fields := parseAux l false [] []
  if 8 ≤ fields.length then some (fields.getD 1 [] ++ '-' :: fields.getD 7 []) else none

/-- Embeds the `existingKeys` set of `addTracksToCSVFile`: keys of all
non-blank stored lines after the header. -/
def existingKeys (content : String) : List (List Char) :=
  ((csvLines content).drop 1).filterMap keyOfLine

/-- The `(entityId, occurredAt)` pair of one stored line: the
`(fields[1], fields[7])` projection when the line has at least the 8
expected fields. -/
def eventOfLine (l : List Char) : Option (List Char × List Char) :=
  let fields := parseAux l false [] []
  if 8 ≤ fields.length then some (fields.getD 1 [], fields.getD 7 []) else none

/-- The `(entityId, occurredAt)` pairs of the parsed stored events. -/
def storedEvents (content : String) : List (List Char × List Char) :=
  ((csvLines content).drop 1).filterMap eventOfLine

/-- Embeds the `tracks.forEach` loop of `addTracksToCSVFile`: accumulates
`newLines` and `addedCount`, extending the key set on every insertion
(`existingKeys.add(key)` suppresses duplicates within the batch). -/
def addLoop (now : String) : List PlayItem → List (List Char) → List (List Char) → Nat →
    List (List Char) × Nat
  | [], _, newLines, added => (newLines, added)
  | item :: rest, keys, newLines, added =>
    if keyOfItem now item ∈ keys then addLoop now rest keys newLines added
    else addLoop now rest (keyOfItem now item :: keys)
      (newLines ++ [lineOfItem now item]) (added + 1)

/-- Embeds `newLines.join('\n')`. -/
def joinNl : List (List Char) → List Char
  | [] => []
  | [l] => l
  | l :: g :: rest => l ++ '\n' :: joinNl (g :: rest)

/-- Embeds `addTracksToCSVFile` (server/csvUtils.ts): computes the existing
key set, filters the batch, and — when anything is new — writes
`existingContent.trimEnd() + '\n' + newLines.join('\n') + '\n'`.  Returns
the written file content and `addedCount`. -/
def addTracksToCSVFile (now : String) (tracks : List PlayItem) (existingContent : String) :
    String × Nat :=
  let res := addLoop now tracks (existingKeys existingContent) [] 0
  if 0 < res.1.length then
    (String.mk (dropTrailingWS existingContent.data ++ '\n' :: (joinNl res.1 ++ ['\n'])),
      res.2)
  else (existingContent, res.2)

/-- Embeds the record count of `GET /csv` (server/csvStorage.ts):
`Math.max(0, lines.length - 1)` over the non-blank lines. -/
def recordCount (content : String) : Nat :=
  (csvLines content).length - 1

/-- Embeds `parseInt(fields[5], 10)` with its `isNaN` guard, for the
non-negative integral strings the store writes. -/
def jsParseInt (s : List Char) : Option Nat :=
  match s.takeWhile Char.isDigit with
  | [] => none
  | ds => some (ds.foldl (fun a c => a * 10 + (c.toNat - 48)) 0)

/-- Embeds `GET /csv/total-listening-time` (server/csvStorage.ts): sums
`parseInt(fields[5], 10)` over every stored line with at least 6 fields,
skipping NaN values. -/
def totalListeningTime (content : String) : Nat :=
  ((csvLines content).drop 1).foldl (fun acc l =>
    let fields := parseAux l false [] []
    if 6 ≤ fields.length then
      match jsParseInt (fields.getD 5 []) with
      | some n => acc + n
      | none => acc
    else acc) 0

/-- The mandatory header row (server/csvStorage.ts, `HEADERS`). -/
def HEADERS : String :=
  "date,trackId,trackName,artistName,albumName,durationMs,popularity,timestamp\n"

/-- Embeds `GET /csv/download` (server/csvStorage.ts): the raw bytes of the
store are sent to the client. -/
def downloadCSV (store : String) : String := store

/-- Embeds `String.prototype.trim` at the `String` level. -/
def jsTrim (s : String) : String := String.mk (trimChars s.data)

/-- Embeds `String.prototype.split('\n')` at the `String` level. -/
def jsSplitLines (s : String) : List String := (splitNl s.data).map String.mk

/-- Embeds `String.prototype.includes(sub)`: substring containment. -/
def jsIncludes (s sub : String) : Bool := decide (sub.data <:+: s.data)

/-- Embeds `POST /csv/upload` (server/csvStorage.ts): rejects an empty body,
rejects when the first line of the trimmed body does not contain `trackId`,
and otherwise replaces the store with the body.  Returns the resulting
store content and the success flag. -/
def uploadCSV (csvContent : String) (store : String) : String × Bool :=
  if csvContent = "" then (store, false)
  else if (jsSplitLines (jsTrim csvContent)).length = 0 ∨
      ¬jsIncludes ((jsSplitLines (jsTrim csvContent)).headD "") "trackId" then (store, false)
  else (csvContent, true)

/-! ## Claim C10: parse is a left inverse of escape-and-join -/

/-- C10 (counterexample): the round trip fails on the empty field list —
`parseCSVLine` always returns at least one field, so parsing the empty
joined line yields `[""]`, not `[]`. -/
theorem c10_roundTrip_counterexample :
    parseCSVLine (joinWith "," (List.map escapeCSV [])) = [""] ∧
      ([""] : List String) ≠ [] := by
  constructor
  · rfl
  · decide

/-- C10 (amended): for every nonempty list of fields — fields may contain
commas, quotes or newlines — encoding each field with `escapeCSV`, joining
with commas, and parsing with `parseCSVLine` returns exactly the original
fields. -/
theorem c10_parse_escape_roundTrip (fields : List String) (hne : fields ≠ []) :
    parseCSVLine (joinWith "," (fields.map escapeCSV)) = fields := by
  unfold parseCSVLine
  rw [joinWith_comma_data]
  have hmap : (fields.map escapeCSV).map String.data =
      (fields.map String.data).map encodeField := by
    simp [escapeCSV]
  rw [hmap, parseAux_joinComma_encode _ [] (by simpa using hne), List.nil_append,
    List.map_map, show String.mk ∘ String.data = id from funext fun _ => rfl, List.map_id]

/-- C10 (witness): the round trip at a concrete field list exercising a
comma, a quote, a newline and an empty field. -/
theorem c10_parse_escape_roundTrip_witness :
    (["a,b", "c\"d", "e\nf", ""] : List String) ≠ [] ∧
      parseCSVLine (joinWith "," (List.map escapeCSV ["a,b", "c\"d", "e\nf", ""])) =
        ["a,b", "c\"d", "e\nf", ""] :=
  ⟨by decide, c10_parse_escape_roundTrip ["a,b", "c\"d", "e\nf", ""] (by decide)⟩

/-! ## Claim C6: export/import round trip -/

/-- C6: for every store state, importing the byte stream produced by export
(`uploadCSV (downloadCSV store)`) leaves the store unchanged — the parsed
stored events before and after coincide, so no duplicates appear. -/
theorem c6_export_import_roundTrip (store : String) :
    (uploadCSV (downloadCSV store) store).1 = store ∧
      storedEvents (uploadCSV (downloadCSV store) store).1 = storedEvents store := by
  have h1 : (uploadCSV (downloadCSV store) store).1 = store := by
    unfold uploadCSV downloadCSV
    split
    · rfl
    · split <;> rfl
  exact ⟨h1, by rw [h1]⟩

/-! ## Claim C8: malformed import is rejected without a write -/

/-- C8 (counterexample): a payload whose first line is empty (so does not
contain `trackId`) but whose second line starts with `trackId` is accepted:
the code checks the first line of the *trimmed* payload, and the store is
overwritten. -/
theorem c8_malformed_import_counterexample :
    (jsSplitLines "\ntrackId").headD "" = "" ∧
      jsIncludes "" "trackId" = false ∧
      uploadCSV "\ntrackId" HEADERS = ("\ntrackId", true) ∧
      ("\ntrackId" : String) ≠ HEADERS := by
  refine ⟨rfl, by decide, ?_, by decide⟩
  decide

/-- C8 (amended): every import payload that is empty, or whose trimmed
payload's first line does not contain `trackId`, is rejected and the store
is left unchanged. -/
theorem c8_malformed_import_rejected (payload store : String)
    (h : payload = "" ∨
      jsIncludes ((jsSplitLines (jsTrim payload)).headD "") "trackId" = false) :
    uploadCSV payload store = (store, false) := by
  unfold uploadCSV
  by_cases hempty : payload = ""
  · rw [if_pos hempty]
  · rw [if_neg hempty]
    have hfail : jsIncludes ((jsSplitLines (jsTrim payload)).headD "") "trackId" = false :=
      h.resolve_left hempty
    rw [if_pos]
    refine Or.inr fun hcontra => ?_
    rw [hfail] at hcontra
    exact Bool.false_ne_true hcontra

/-- C8 (witness): a concrete junk payload is rejected and the store keeps
its bytes. -/
theorem c8_malformed_import_rejected_witness :
    (("abc" : String) = "" ∨
        jsIncludes ((jsSplitLines (jsTrim "abc")).headD "") "trackId" = false) ∧
      uploadCSV "abc" HEADERS = (HEADERS, false) :=
  ⟨Or.inr (by decide), c8_malformed_import_rejected "abc" HEADERS (Or.inr (by decide))⟩

end SpotifyStats

namespace SpotifyStats

/-! ## Claim C3: the paginated fetchers (api/cron.ts `fetchRecentlyPlayed`
and server/spotifyService.ts `fetchRecentlyPlayed`) -/

/-- The check `items.length === maxLimit` with `maxLimit = 50`. -/
def fullPage (p : List Nat) : Bool := p.length = 50

/-- Embeds the `while (hasMore)` loop of `fetchRecentlyPlayed` in
api/cron.ts.  The upstream is modelled by the list of successive responses;
each response is the list of `played_at` epoch-millisecond timestamps of its
items (newest first), and a request beyond the supplied list returns
`{ items: [] }`.  The result collects the `before` cursor of every request
made (`none` for the first, cursor-less request) and the concatenation of
all items; `items[items.length - 1].played_at` is the oldest timestamp of a
page. -/
def cronFetchGo : List (List Nat) → Option Nat → List (Option Nat) × List Nat
  | [], before => ([before], [])
  | items :: rest, before =>
    if items.length = 0 then ([before], [])
    else if items.length = 50 then
      let r := cronFetchGo rest (some (items.getLastD 0))
      (before :: r.1, items ++ r.2)
    else ([before], items)

/-- Embeds `fetchRecentlyPlayed` (api/cron.ts): the loop started with
`before = null`. -/
def cronFetchRecentlyPlayed (pages : List (List Nat)) : List (Option Nat) × List Nat :=
  cronFetchGo pages none

/-- One upstream response as inspected by `fetchRecentlyPlayed` in
server/spotifyService.ts: the items plus `data.cursors?.before`
(`none` models an absent/falsy cursor). -/
structure SvcPage where
  items : List Nat
  cursorsBefore : Option Nat

/-- Embeds the `while (hasMore)` loop of `fetchRecentlyPlayed` in
server/spotifyService.ts (the variant whose continuation condition is
`items.length === maxLimit || (data.cursors?.before && oldestTimestamp !==
before)`), counting the requests made and collecting all items. -/
def svcFetchGo : List SvcPage → Option Nat → Nat × List Nat
  | [], _ => (1, [])
  | page :: rest, before =>
    if page.items.length = 0 then (1, [])
    else if page.items.length = 50 ∨
        (page.cursorsBefore ≠ none ∧ some (page.items.getLastD 0) ≠ before) then
      let r := svcFetchGo rest (some (page.items.getLastD 0))
      (r.1 + 1, page.items ++ r.2)
    else (1, page.items)

/-- Embeds `fetchRecentlyPlayed` (server/spotifyService.ts): the loop
started with `before = null`. -/
def svcFetchRecentlyPlayed (pages : List SvcPage) : Nat × List Nat :=
  svcFetchGo pages none

theorem cronFetchGo_spec (pages : List (List Nat)) (before : Option Nat) :
    cronFetchGo pages before =
      (before :: (pages.takeWhile fullPage).map (fun p => some (p.getLastD 0)),
       (pages.take ((pages.takeWhile fullPage).length + 1)).flatten) := by
  induction pages generalizing before with
  | nil => simp [cronFetchGo]
  | cons items rest ih =>
    by_cases h0 : items.length = 0
    · have : items = [] := List.length_eq_zero.mp h0
      subst this
      simp [cronFetchGo, List.takeWhile, fullPage]
    · by_cases h50 : items.length = 50
      · have hfull : fullPage items = true := by simp [fullPage, h50]
        simp only [cronFetchGo, if_neg h0, if_pos h50, ih, List.takeWhile_cons, hfull,
          if_pos rfl, if_true, List.map_cons, List.length_cons, List.take_succ_cons,
          List.flatten_cons]
      · have hfull : fullPage items = false := by simp [fullPage, h50]
        simp [cronFetchGo, if_neg h0, if_neg h50, List.takeWhile_cons, hfull]

theorem svcFetchGo_spec (pages : List SvcPage) (before : Option Nat)
    (hcur : ∀ p ∈ pages, p.cursorsBefore = none) :
    svcFetchGo pages before =
      ((pages.takeWhile (fun p => fullPage p.items)).length + 1,
       ((pages.take ((pages.takeWhile (fun p => fullPage p.items)).length + 1)).map
          SvcPage.items).flatten) := by
  induction pages generalizing before with
  | nil => simp [svcFetchGo]
  | cons page rest ih =>
    have hc : page.cursorsBefore = none := hcur page (by simp)
    have hrest : ∀ p ∈ rest, p.cursorsBefore = none := fun p hp => hcur p (by simp [hp])
    by_cases h0 : page.items.length = 0
    · have : page.items = [] := List.length_eq_zero.mp h0
      simp [svcFetchGo, if_pos h0, List.takeWhile_cons, fullPage, this]
    · by_cases h50 : page.items.length = 50
      · have hfull : fullPage page.items = true := by simp [fullPage, h50]
        simp only [svcFetchGo, if_neg h0, if_pos (Or.inl h50), ih _ hrest,
          List.takeWhile_cons, hfull, if_pos rfl, if_true, List.length_cons,
          List.take_succ_cons, List.map_cons, List.flatten_cons]
      · have hcond : ¬(page.items.length = 50 ∨
            (page.cursorsBefore ≠ none ∧ some (page.items.getLastD 0) ≠ before)) := by
          simp [h50, hc]
        have hfull : fullPage page.items = false := by simp [fullPage, h50]
        simp only [svcFetchGo, if_neg h0, if_neg hcond]
        simp [List.takeWhile_cons, hfull]

/-- C3 (counterexample): for the spotifyService fetcher, a response sequence
with page sizes `[12]` whose (single, sub-full) page carries a `before`
cursor results in 2 upstream calls, not 1: the claim that the fetcher stops
at the first page with fewer than 50 items fails on
server/spotifyService.ts's continuation condition. -/
theorem c3_pagination_counterexample :
    (svcFetchRecentlyPlayed [⟨List.replicate 12 9, some 7⟩]).1 = 2 ∧
      (List.replicate (α := Nat) 12 9).length = 12 ∧ (2 : Nat) ≠ 1 := by
  refine ⟨rfl, by decide, by decide⟩

/-- C3 (amended): the cron fetcher (api/cron.ts) satisfies the claim for
every upstream response sequence: it keeps requesting — with the cursor set
to the oldest `played_at` of the previous page — exactly while pages come
back full (50 items), stops at the first page with fewer than 50 items
(including zero), has no cap on the page count, and returns the
concatenation of all pages seen.  The spotifyService fetcher satisfies the
same description provided its responses carry no `before` cursor. -/
theorem c3_pagination_termination :
    (∀ pages : List (List Nat),
      cronFetchRecentlyPlayed pages =
        (none :: (pages.takeWhile fullPage).map (fun p => some (p.getLastD 0)),
         (pages.take ((pages.takeWhile fullPage).length + 1)).flatten)) ∧
    (∀ pages : List SvcPage, (∀ p ∈ pages, p.cursorsBefore = none) →
      svcFetchRecentlyPlayed pages =
        ((pages.takeWhile (fun p => fullPage p.items)).length + 1,
         ((pages.take ((pages.takeWhile (fun p => fullPage p.items)).length + 1)).map
            SvcPage.items).flatten)) :=
  ⟨fun pages => cronFetchGo_spec pages none, fun pages h => svcFetchGo_spec pages none h⟩

/-- C3 (witness): the claim's three scenarios for the cron fetcher — page
sizes `[50, 50, 37]` give 3 calls and 137 events, `[50, 0]` give 2 calls
and 50 events, `[12]` gives 1 call and 12 events — and the cursor-free
`[12]` scenario for the spotifyService fetcher. -/
theorem c3_pagination_termination_witness :
    ((cronFetchRecentlyPlayed [List.replicate 50 3, List.replicate 50 2,
        List.replicate 37 1]).1.length = 3 ∧
      (cronFetchRecentlyPlayed [List.replicate 50 3, List.replicate 50 2,
        List.replicate 37 1]).2.length = 137) ∧
    ((cronFetchRecentlyPlayed [List.replicate 50 3, []]).1.length = 2 ∧
      (cronFetchRecentlyPlayed [List.replicate 50 3, []]).2.length = 50) ∧
    ((cronFetchRecentlyPlayed [List.replicate 12 9]).1.length = 1 ∧
      (cronFetchRecentlyPlayed [List.replicate 12 9]).2.length = 12) ∧
    (∀ p ∈ ([⟨List.replicate 12 9, none⟩] : List SvcPage), p.cursorsBefore = none) ∧
    svcFetchRecentlyPlayed [⟨List.replicate 12 9, none⟩] = (1, List.replicate 12 9) := by
  have h1 := c3_pagination_termination.1 [List.replicate 50 3, List.replicate 50 2,
    List.replicate 37 1]
  have h2 := c3_pagination_termination.1 [List.replicate 50 3, []]
  have h3 := c3_pagination_termination.1 [List.replicate 12 9]
  have hnone : ∀ p ∈ ([⟨List.replicate 12 9, none⟩] : List SvcPage),
      p.cursorsBefore = none := by decide
  have h4 := c3_pagination_termination.2 [⟨List.replicate 12 9, none⟩] hnone
  refine ⟨⟨?_, ?_⟩, ⟨?_, ?_⟩, ⟨?_, ?_⟩, hnone, ?_⟩
  · rw [h1]; decide
  · rw [h1]; decide
  · rw [h2]; decide
  · rw [h2]; decide
  · rw [h3]; decide
  · rw [h3]; decide
  · rw [h4]; decide

end SpotifyStats

namespace SpotifyStats

/-! ## The frontend aggregator (src/hooks/useSpotify.ts, `recomputeStats`) -/

/-- The track payload read by `recomputeStats`: `item.track.id`,
`item.track.duration_ms` and the artist names `item.track.artists[].name`. -/
structure FrontTrack where
  id : String
  duration_ms : Nat
  artists : List String

/-- One play-history entry.  `played_at` is the epoch-millisecond value
`new Date(item.played_at).getTime()`; modelling the ISO string by its
timestamp keeps the comparator and the UTC day bucket faithful. -/
structure HistoryEntry where
  track : FrontTrack
  played_at : Nat

/-- Embeds the JavaScript object-property write `rec[k] = v` for records
with string (non-index) keys: an existing key keeps its position, a new key
is appended in insertion order. -/
def recSet [BEq α] : List (α × Nat) → α → Nat → List (α × Nat)
  | [], k, v => [(k, v)]
  | (k', v') :: rest, k, v =>
    if k' == k then (k', v) :: rest else (k', v') :: recSet rest k v

/-- Embeds the read `rec[k] ?? 0`. -/
def recGet [BEq α] (rec : List (α × Nat)) (k : α) : Nat :=
  (rec.lookup k).getD 0

/-- Embeds `rec[k] = (rec[k] ?? 0) + v`. -/
def bump [BEq α] (rec : List (α × Nat)) (k : α) (v : Nat) : List (α × Nat) :=
  recSet rec k (recGet rec k + v)

/-- Embeds the comparator `(a, b) => new Date(b.played_at).getTime() - new
Date(a.played_at).getTime()`: `a` may stay before `b` exactly when the
comparator is non-positive. -/
def byPlayedAtDesc (a b : HistoryEntry) : Bool :=
  decide (b.played_at ≤ a.played_at)

/-- Embeds the bucket key `new Date(item.played_at).toISOString().slice(0,
10)`: the UTC day index, which determines the date string and has the same
order. -/
def dayKey (t : Nat) : Nat := t / 86400000

/-- Embeds the comparator `([a], [b]) => (a < b ? 1 : -1)` on day keys:
`a` may stay before `b` exactly when the comparator is non-positive. -/
def byDateDesc (a b : Nat × Nat) : Bool :=
  decide (b.1 ≤ a.1)

/-- Embeds `Math.round(ms / 60000)` for natural `ms`. -/
def jsRoundMinutes (ms : Nat) : Nat := (ms + 30000) / 60000

/-- One iteration of the `for (const item of limited)` loop of
`recomputeStats`: bumps the track count, the per-day duration sum, and one
artist count per listed artist.  (`totalMs` is also accumulated by the
source but never published to any state, so it is not part of the model's
output.) -/
def statsStep (acc : List (String × Nat) × List (String × Nat) × List (Nat × Nat))
    (item : HistoryEntry) :
    List (String × Nat) × List (String × Nat) × List (Nat × Nat) :=
  (bump acc.1 item.track.id 1,
   item.track.artists.foldl (fun a n => bump a n 1) acc.2.1,
   bump acc.2.2 (dayKey item.played_at) item.track.duration_ms)

/-- The three states published by `recomputeStats`. -/
structure Stats where
  trackPlayCounts : List (String × Nat)
  artistPlayCounts : List (String × Nat)
  minutesPerDay : List (Nat × Nat)

/-- Embeds `recomputeStats` (src/hooks/useSpotify.ts): sorts the entries by
`played_at` descending (JavaScript `Array.prototype.sort` is stable, as is
`List.mergeSort`), keeps the first 1000, folds the counting loop, and
publishes `minutesPerDay` sorted by day descending with values rounded to
the nearest minute. -/
def recomputeStats (entries : List HistoryEntry) : Stats :=
  let limited := (entries.mergeSort byPlayedAtDesc).take 1000
  let r := limited.foldl statsStep ([], [], [])
  { trackPlayCounts := r.1,
    artistPlayCounts := r.2.1,
    minutesPerDay := (r.2.2.mergeSort byDateDesc).map (fun p => (p.1, jsRoundMinutes p.2)) }

/-! ### Record lemmas -/

theorem recGet_recSet [DecidableEq α] (rec : List (α × Nat)) (k k' : α) (v : Nat) :
    recGet (recSet rec k v) k' = if k' = k then v else recGet rec k' := by
  induction rec with
  | nil =>
    by_cases h : k' = k
    · simp [recSet, recGet, List.lookup, h]
    · have hne : (k' == k) = false := beq_eq_false_iff_ne.mpr h
      simp [recSet, recGet, List.lookup, h, hne]
  | cons p rest ih =>
    obtain ⟨k0, v0⟩ := p
    by_cases h0 : k0 = k
    · subst h0
      by_cases h : k' = k0
      · have heq : (k' == k0) = true := beq_iff_eq.mpr h
        simp [recSet, recGet, List.lookup, h, heq]
      · have hne : (k' == k0) = false := beq_eq_false_iff_ne.mpr h
        simp [recSet, recGet, List.lookup, h, hne]
    · have hne : (k0 == k) = false := beq_eq_false_iff_ne.mpr h0
      by_cases h : k' = k0
      · subst h
        have heq : (k' == k') = true := beq_iff_eq.mpr rfl
        simp [recSet, hne, recGet, List.lookup, h0, heq]
      · have hk' : (k' == k0) = false := beq_eq_false_iff_ne.mpr h
        simp only [recSet, hne, Bool.false_eq_true, if_false]
        simp only [recGet, List.lookup, hk']
        exact ih

theorem recGet_bump [DecidableEq α] (rec : List (α × Nat)) (k k' : α) (v : Nat) :
    recGet (bump rec k v) k' = recGet rec k' + if k' = k then v else 0 := by
  unfold bump
  rw [recGet_recSet]
  by_cases h : k' = k
  · simp [h]
  · simp [h]

theorem recGet_artistFold (names : List String) (rec : List (String × Nat)) (name : String) :
    recGet (names.foldl (fun a n => bump a n 1) rec) name =
      recGet rec name + names.count name := by
  induction names generalizing rec with
  | nil => simp
  | cons n t ih =>
    rw [List.foldl_cons, ih, recGet_bump]
    by_cases h : name = n
    · simp [h, List.count_cons, Nat.add_comm, Nat.add_assoc, Nat.add_left_comm]
    · have hne : (n == name) = false := beq_eq_false_iff_ne.mpr (Ne.symm h)
      simp [List.count_cons, hne, h]

theorem statsFold_artists (entries : List HistoryEntry)
    (acc : List (String × Nat) × List (String × Nat) × List (Nat × Nat)) :
    (entries.foldl statsStep acc).2.1 =
      entries.foldl (fun a e => e.track.artists.foldl (fun r n => bump r n 1) a) acc.2.1 := by
  induction entries generalizing acc with
  | nil => rfl
  | cons e t ih =>
    rw [List.foldl_cons, ih, List.foldl_cons]
    rfl

theorem artistFold_flatten_count (entries : List HistoryEntry)
    (rec : List (String × Nat)) (name : String) :
    recGet (entries.foldl (fun a e => e.track.artists.foldl (fun r n => bump r n 1) a) rec)
        name =
      recGet rec name + ((entries.map (fun e => e.track.artists)).flatten).count name := by
  induction entries generalizing rec with
  | nil => simp
  | cons e t ih =>
    rw [List.foldl_cons, ih, recGet_artistFold]
    simp [Nat.add_assoc]

end SpotifyStats

namespace SpotifyStats

/-! ## Claim C4: aggregate correctness -/

/-- The claim's working set for the frontend aggregator: two plays of `X`
(180000 ms and 120000 ms) on day `D1 = 0` and one play of `Y` (300000 ms)
on day `D2 = 1`. -/
def c4Entries : List HistoryEntry :=
  [⟨⟨"X", 180000, ["A"]⟩, 1000⟩, ⟨⟨"X", 120000, ["A"]⟩, 2000⟩,
   ⟨⟨"Y", 300000, ["C"]⟩, 86401000⟩]

/-- The claim's working set as stored play events, merged into an empty
store for the total-duration query. -/
def c4Items : List PlayItem :=
  [⟨⟨"X", "na", ["A"], "B", 180000, 7⟩, "2020-01-01T00:00:01.000Z"⟩,
   ⟨⟨"X", "nb", ["A"], "B", 120000, 7⟩, "2020-01-01T00:00:02.000Z"⟩,
   ⟨⟨"Y", "nc", ["C"], "D", 300000, 9⟩, "2020-01-02T00:00:01.000Z"⟩]

/-- C4: on the working set `[{X,180000,D1}, {X,120000,D1}, {Y,300000,D2}]`
the aggregator returns play counts `X ↦ 2`, `Y ↦ 1` and per-day minutes
`D2 ↦ 5, D1 ↦ 5` (sums rounded to the nearest minute); every contributing
attribution of an event receives exactly one play-count increment per event
(the artist count of any name over any working set equals its number of
occurrences across the flattened artist lists of the capped, sorted
entries); and the store's total-duration query over these three events
returns 600000 ms. -/
theorem c4_aggregate_correctness :
    recGet (recomputeStats c4Entries).trackPlayCounts "X" = 2 ∧
    recGet (recomputeStats c4Entries).trackPlayCounts "Y" = 1 ∧
    (recomputeStats c4Entries).minutesPerDay = [(1, 5), (0, 5)] ∧
    (∀ (entries : List HistoryEntry) (name : String),
      recGet (recomputeStats entries).artistPlayCounts name =
        ((((entries.mergeSort byPlayedAtDesc).take 1000).map
            (fun e => e.track.artists)).flatten).count name) ∧
    totalListeningTime (addTracksToCSVFile "now" c4Items HEADERS).1 = 600000 := by
  refine ⟨?_, ?_, ?_, ?_, ?_⟩
  · simp [recomputeStats, c4Entries, List.mergeSort, statsStep, bump, recSet, recGet,
      List.lookup, byPlayedAtDesc, byDateDesc, dayKey, jsRoundMinutes]
  · simp [recomputeStats, c4Entries, List.mergeSort, statsStep, bump, recSet, recGet,
      List.lookup, byPlayedAtDesc, byDateDesc, dayKey, jsRoundMinutes]
  · simp [recomputeStats, c4Entries, List.mergeSort, statsStep, bump, recSet, recGet,
      List.lookup, byPlayedAtDesc, byDateDesc, dayKey, jsRoundMinutes]
  · intro entries name
    show recGet (((entries.mergeSort byPlayedAtDesc).take 1000).foldl statsStep
      ([], [], [])).2.1 name = _
    rw [statsFold_artists, artistFold_flatten_count]
    simp [recGet, List.lookup]
  · decide

/-! ## Claim C9: the 1000-entry window and the descending day order -/

theorem statsFold_perDay (entries : List HistoryEntry)
    (acc : List (String × Nat) × List (String × Nat) × List (Nat × Nat)) :
    (entries.foldl statsStep acc).2.2 =
      entries.foldl (fun pd e => bump pd (dayKey e.played_at) e.track.duration_ms)
        acc.2.2 := by
  induction entries generalizing acc with
  | nil => rfl
  | cons e t ih =>
    rw [List.foldl_cons, ih, List.foldl_cons]
    rfl

theorem mem_keys_recSet [DecidableEq α] (rec : List (α × Nat)) (k a : α) (v : Nat)
    (h : a ∈ (recSet rec k v).map Prod.fst) : a ∈ rec.map Prod.fst ∨ a = k := by
  induction rec with
  | nil =>
    simp [recSet] at h
    exact Or.inr h
  | cons p rest ih =>
    by_cases hp : p.1 = k
    · have : (p.1 == k) = true := beq_iff_eq.mpr hp
      simp only [recSet, this, if_true] at h
      simp only [List.map_cons, List.mem_cons] at h ⊢
      exact h.elim (fun hh => Or.inl (Or.inl hh)) (fun hh => Or.inl (Or.inr hh))
    · have : (p.1 == k) = false := beq_eq_false_iff_ne.mpr hp
      simp only [recSet, this, Bool.false_eq_true, if_false] at h
      simp only [List.map_cons, List.mem_cons] at h ⊢
      rcases h with h | h
      · exact Or.inl (Or.inl h)
      · rcases ih h with hh | hh
        · exact Or.inl (Or.inr hh)
        · exact Or.inr hh

theorem nodup_keys_recSet [DecidableEq α] (rec : List (α × Nat)) (k : α) (v : Nat)
    (h : (rec.map Prod.fst).Nodup) : ((recSet rec k v).map Prod.fst).Nodup := by
  induction rec with
  | nil => simp [recSet]
  | cons p rest ih =>
    simp only [List.map_cons, List.nodup_cons] at h
    by_cases hp : p.1 = k
    · have hbeq : (p.1 == k) = true := beq_iff_eq.mpr hp
      simp only [recSet, hbeq, if_true, List.map_cons, List.nodup_cons]
      exact h
    · have hbeq : (p.1 == k) = false := beq_eq_false_iff_ne.mpr hp
      simp only [recSet, hbeq, Bool.false_eq_true, if_false, List.map_cons,
        List.nodup_cons]
      refine ⟨fun hmem => ?_, ih h.2⟩
      rcases mem_keys_recSet rest k p.1 v hmem with hh | hh
      · exact h.1 hh
      · exact hp hh

theorem nodup_keys_perDayFold (entries : List HistoryEntry) (pd : List (Nat × Nat))
    (h : (pd.map Prod.fst).Nodup) :
    ((entries.foldl (fun pd e => bump pd (dayKey e.played_at) e.track.duration_ms)
        pd).map Prod.fst).Nodup := by
  induction entries generalizing pd with
  | nil => exact h
  | cons e t ih =>
    rw [List.foldl_cons]
    exact ih _ (nodup_keys_recSet _ _ _ h)

theorem byPlayedAtDesc_trans (a b c : HistoryEntry) (hab : byPlayedAtDesc a b)
    (hbc : byPlayedAtDesc b c) : byPlayedAtDesc a c := by
  simp only [byPlayedAtDesc, decide_eq_true_eq] at *
  omega

theorem byPlayedAtDesc_total (a b : HistoryEntry) :
    byPlayedAtDesc a b || byPlayedAtDesc b a := by
  simp only [byPlayedAtDesc, Bool.or_eq_true, decide_eq_true_eq]
  omega

/-- C9: the aggregator's play counts and per-day buckets depend only on the
at-most-1000 most recent entries in `occurredAt`-descending order —
re-running `recomputeStats` on just that window reproduces the whole
output — and the published `minutesPerDay` sequence is strictly descending
in its date key. -/
theorem c9_windowed_aggregation :
    (∀ entries : List HistoryEntry,
      recomputeStats entries =
        recomputeStats ((entries.mergeSort byPlayedAtDesc).take 1000)) ∧
    (∀ entries : List HistoryEntry,
      (recomputeStats entries).minutesPerDay.Pairwise (fun a b => b.1 < a.1)) := by
  constructor
  · intro entries
    have hsorted : ((entries.mergeSort byPlayedAtDesc).take 1000).Pairwise
        (fun a b => byPlayedAtDesc a b = true) :=
      List.Pairwise.sublist (List.take_sublist 1000 _)
        (List.sorted_mergeSort byPlayedAtDesc_trans byPlayedAtDesc_total entries)
    have heq : ((entries.mergeSort byPlayedAtDesc).take 1000).mergeSort byPlayedAtDesc =
        (entries.mergeSort byPlayedAtDesc).take 1000 :=
      List.mergeSort_of_sorted hsorted
    show recomputeStats entries = _
    unfold recomputeStats
    rw [heq, List.take_take, Nat.min_self]
  · intro entries
    have hkeys : (((((entries.mergeSort byPlayedAtDesc).take 1000).foldl statsStep
        ([], [], [])).2.2).map Prod.fst).Nodup := by
      rw [statsFold_perDay]
      exact nodup_keys_perDayFold _ _ (by simp)
    have htrans : ∀ a b c : Nat × Nat, byDateDesc a b → byDateDesc b c →
        byDateDesc a c := by
      intro a b c hab hbc
      simp only [byDateDesc, decide_eq_true_eq] at *
      omega
    have htotal : ∀ a b : Nat × Nat, byDateDesc a b || byDateDesc b a := by
      intro a b
      simp only [byDateDesc, Bool.or_eq_true, decide_eq_true_eq]
      omega
    have hsorted := List.sorted_mergeSort htrans htotal
      ((((entries.mergeSort byPlayedAtDesc).take 1000).foldl statsStep ([], [], [])).2.2)
    have hperm := List.mergeSort_perm
      ((((entries.mergeSort byPlayedAtDesc).take 1000).foldl statsStep ([], [], [])).2.2)
      byDateDesc
    have hkeys' : (((((entries.mergeSort byPlayedAtDesc).take 1000).foldl statsStep
        ([], [], [])).2.2.mergeSort byDateDesc).map Prod.fst).Nodup :=
      ((hperm.map Prod.fst).nodup_iff).mpr hkeys
    have hne : ((((entries.mergeSort byPlayedAtDesc).take 1000).foldl statsStep
        ([], [], [])).2.2.mergeSort byDateDesc).Pairwise (fun a b => a.1 ≠ b.1) :=
      (List.pairwise_map).mp hkeys'
    have hcomb := hne.and hsorted
    show (((((entries.mergeSort byPlayedAtDesc).take 1000).foldl statsStep
        ([], [], [])).2.2.mergeSort byDateDesc).map
          (fun p => (p.1, jsRoundMinutes p.2))).Pairwise (fun a b => b.1 < a.1)
    rw [List.pairwise_map]
    refine hcomb.imp ?_
    intro a b hab
    have h1 : a.1 ≠ b.1 := hab.1
    have h2 : byDateDesc a b = true := hab.2
    simp only [byDateDesc, decide_eq_true_eq] at h2
    omega

end SpotifyStats

namespace SpotifyStats

/-! ## Claim C5: the update-loop concurrency guard
(server/spotifyService.ts `fetchAndUpdateCSVWithLock`, `fetchAndUpdateCSV`;
server/csvUtils.ts `addTracksToCSVFileSafely`) -/

/-- The process state touched by one fetch→merge run: the module-level
`isUpdating` flag, the module-level `csvWriteLock` flag, the CSV file
contents, and instrumentation counting upstream fetches and merge (write)
attempts. -/
structure ServiceState where
  isUpdating : Bool
  csvWriteLock : Bool
  store : String
  fetchCalls : Nat
  mergeCalls : Nat
deriving DecidableEq

/-- The outcome of one `fetchRecentlyPlayed` call: a rejected/thrown fetch,
or the fetched track batch. -/
inductive FetchOutcome where
  | failure
  | success (tracks : List PlayItem)

/-- Embeds `addTracksToCSVFileSafely` (server/csvUtils.ts): if
`csvWriteLock` is held the call throws (`CSV write operation already in
progress`) — its caller `fetchAndUpdateCSV` catches and logs, leaving the
state unchanged; otherwise the lock is taken, the file is read and merged,
and the `finally` block releases the lock on both the normal and the
throwing path (`ioError = true` models `readFileSync`/`writeFileSync`
throwing inside the `try`). -/
def addTracksToCSVFileSafely (now : String) (tracks : List PlayItem) (ioError : Bool)
    (st : ServiceState) : ServiceState :=
  if st.csvWriteLock then st
  else if ioError then
    { st with csvWriteLock := false }
  else
    { st with
      csvWriteLock := false
      store := (addTracksToCSVFile now tracks st.store).1
      mergeCalls := st.mergeCalls + 1 }

/-- Embeds `fetchAndUpdateCSV` (server/spotifyService.ts): skips entirely
when no valid token is available; otherwise fetches (counted), and on a
non-empty successful batch runs the locked merge.  All errors are caught
inside this function, so it never throws to its caller. -/
def fetchAndUpdateCSV (now : String) (token : Option String) (outcome : FetchOutcome)
    (ioError : Bool) (st : ServiceState) : ServiceState :=
  match token with
  | none => st
  | some _ =>
    match outcome with
    | .failure => { st with fetchCalls := st.fetchCalls + 1 }
    | .success tracks =>
      if tracks.length = 0 then { st with fetchCalls := st.fetchCalls + 1 }
      else addTracksToCSVFileSafely now tracks ioError
        { st with fetchCalls := st.fetchCalls + 1 }

/-- Embeds `fetchAndUpdateCSVWithLock` (server/spotifyService.ts): a tick
that finds `isUpdating` set returns at once; otherwise it sets the flag,
runs `fetchAndUpdateCSV`, and the `finally` block clears the flag on every
exit path. -/
def fetchAndUpdateCSVWithLock (now : String) (token : Option String)
    (outcome : FetchOutcome) (ioError : Bool) (st : ServiceState) : ServiceState :=
  if st.isUpdating then st
  else
    { (fetchAndUpdateCSV now token outcome ioError { st with isUpdating := true }) with
      isUpdating := false }

theorem withLock_skip (now : String) (token : Option String) (outcome : FetchOutcome)
    (ioError : Bool) (st : ServiceState) (h : st.isUpdating = true) :
    fetchAndUpdateCSVWithLock now token outcome ioError st = st := by
  unfold fetchAndUpdateCSVWithLock
  rw [if_pos h]

theorem withLock_releases (now : String) (token : Option String) (outcome : FetchOutcome)
    (ioError : Bool) (st : ServiceState) (h : st.isUpdating = false) :
    (fetchAndUpdateCSVWithLock now token outcome ioError st).isUpdating = false := by
  unfold fetchAndUpdateCSVWithLock
  rw [if_neg (by simp [h])]

theorem withLock_overlap (now now2 : String) (token token2 : Option String)
    (outcome outcome2 : FetchOutcome) (ioError ioError2 : Bool) (st : ServiceState)
    (h : st.isUpdating = false) :
    { (fetchAndUpdateCSV now token outcome ioError
        (fetchAndUpdateCSVWithLock now2 token2 outcome2 ioError2
          { st with isUpdating := true })) with isUpdating := false } =
      fetchAndUpdateCSVWithLock now token outcome ioError st := by
  rw [withLock_skip now2 token2 outcome2 ioError2 { st with isUpdating := true } rfl]
  unfold fetchAndUpdateCSVWithLock
  rw [if_neg (by simp [h])]

theorem withLock_merges_once (now : String) (token : String) (tracks : List PlayItem)
    (st : ServiceState) (h : st.isUpdating = false) (h2 : st.csvWriteLock = false)
    (h3 : tracks.length ≠ 0) :
    (fetchAndUpdateCSVWithLock now (some token) (.success tracks) false st).mergeCalls =
      st.mergeCalls + 1 ∧
    (fetchAndUpdateCSVWithLock now (some token) (.success tracks) false st).store =
      (addTracksToCSVFile now tracks st.store).1 := by
  unfold fetchAndUpdateCSVWithLock fetchAndUpdateCSV addTracksToCSVFileSafely
  simp [h, h2, h3]

/-- C5: a tick of the update loop that fires while a run is in flight
(`isUpdating = true`) performs no fetch and no merge and leaves the whole
state — in particular the store — unchanged; an overlapping tick inside a
run changes nothing about that run's effect, so exactly one merge happens
for the overlapping window; and the `finally`-cleared `isUpdating` lock is
released whatever the run does — token missing, fetch failure, empty batch,
I/O error inside the merge, or success — so a failed run can never leave
the loop locked. -/
theorem c5_concurrency_guard :
    (∀ (now : String) (token : Option String) (outcome : FetchOutcome) (ioError : Bool)
      (st : ServiceState), st.isUpdating = true →
        fetchAndUpdateCSVWithLock now token outcome ioError st = st) ∧
    (∀ (now now2 : String) (token token2 : Option String)
      (outcome outcome2 : FetchOutcome) (ioError ioError2 : Bool) (st : ServiceState),
      st.isUpdating = false →
        { (fetchAndUpdateCSV now token outcome ioError
            (fetchAndUpdateCSVWithLock now2 token2 outcome2 ioError2
              { st with isUpdating := true })) with isUpdating := false } =
          fetchAndUpdateCSVWithLock now token outcome ioError st) ∧
    (∀ (now : String) (token : String) (tracks : List PlayItem) (st : ServiceState),
      st.isUpdating = false → st.csvWriteLock = false → tracks.length ≠ 0 →
        (fetchAndUpdateCSVWithLock now (some token) (.success tracks) false
            st).mergeCalls = st.mergeCalls + 1) ∧
    (∀ (now : String) (token : Option String) (outcome : FetchOutcome) (ioError : Bool)
      (st : ServiceState), st.isUpdating = false →
        (fetchAndUpdateCSVWithLock now token outcome ioError st).isUpdating = false) :=
  ⟨withLock_skip,
   fun now now2 token token2 outcome outcome2 ioError ioError2 st h =>
     withLock_overlap now now2 token token2 outcome outcome2 ioError ioError2 st h,
   fun now token tracks st h h2 h3 =>
     (withLock_merges_once now token tracks st h h2 h3).1,
   withLock_releases⟩

/-- C5 (witness): the guard at a concrete state — a locked state is left
untouched; an overlapping tick during a successful run leaves the single
run's result; the run merges once; and the lock ends released even when the
run throws inside the merge. -/
theorem c5_concurrency_guard_witness :
    (fetchAndUpdateCSVWithLock "t" (some "tok") (.success []) false
        ⟨true, false, HEADERS, 3, 5⟩ = ⟨true, false, HEADERS, 3, 5⟩) ∧
    ({ (fetchAndUpdateCSV "t" (some "tok") .failure false
        (fetchAndUpdateCSVWithLock "t2" (some "tok2") .failure false
          ⟨true, false, HEADERS, 0, 0⟩)) with isUpdating := false } =
      fetchAndUpdateCSVWithLock "t" (some "tok") .failure false
        ⟨false, false, HEADERS, 0, 0⟩) ∧
    ((fetchAndUpdateCSVWithLock "t" (some "tok")
        (.success [⟨⟨"X", "n", ["A"], "B", 1, 1⟩, "2020-01-01T00:00:00.000Z"⟩]) false
        ⟨false, false, HEADERS, 0, 0⟩).mergeCalls = 0 + 1) ∧
    ((fetchAndUpdateCSVWithLock "t" (some "tok")
        (.success [⟨⟨"X", "n", ["A"], "B", 1, 1⟩, "2020-01-01T00:00:00.000Z"⟩]) true
        ⟨false, false, HEADERS, 0, 0⟩).isUpdating = false) :=
  ⟨c5_concurrency_guard.1 "t" (some "tok") (.success []) false
      ⟨true, false, HEADERS, 3, 5⟩ rfl,
   c5_concurrency_guard.2.1 "t" "t2" (some "tok") (some "tok2") .failure .failure
      false false ⟨false, false, HEADERS, 0, 0⟩ rfl,
   c5_concurrency_guard.2.2.1 "t" "tok"
      [⟨⟨"X", "n", ["A"], "B", 1, 1⟩, "2020-01-01T00:00:00.000Z"⟩]
      ⟨false, false, HEADERS, 0, 0⟩ rfl rfl (by decide),
   c5_concurrency_guard.2.2.2 "t" (some "tok")
      (.success [⟨⟨"X", "n", ["A"], "B", 1, 1⟩, "2020-01-01T00:00:00.000Z"⟩]) true
      ⟨false, false, HEADERS, 0, 0⟩ rfl⟩

end SpotifyStats

namespace SpotifyStats

/-! ## Well-formed stores and CSV-safe batches (claims C1, C2, C7) -/

/-- A text field free of newlines. -/
def NoNl (s : String) : Prop := '\n' ∉ s.data

/-- A key field (entity id, timestamp) as upstream supplies it: nonempty,
free of CSV metacharacters and whitespace. -/
def SafeToken (s : String) : Prop :=
  s ≠ "" ∧ ∀ c ∈ s.data, c ≠ ',' ∧ c ≠ '"' ∧ c ≠ '\n' ∧ ¬c.isWhitespace

/-- A batch item whose key fields are CSV-safe and whose text fields are
newline-free (escaping handles their commas and quotes). -/
def ItemSafe (item : PlayItem) : Prop :=
  SafeToken item.track.id ∧ SafeToken item.played_at ∧ NoNl item.track.name ∧
  (∀ a ∈ item.track.artists, NoNl a) ∧ NoNl item.track.album

/-- A physical store line: no embedded newline, not blank, no trailing
whitespace. -/
def LineOK (l : List Char) : Prop :=
  '\n' ∉ l ∧ trimChars l ≠ [] ∧ dropTrailingWS l = l

instance (s : String) : Decidable (NoNl s) := by
  unfold NoNl
  infer_instance

instance (s : String) : Decidable (SafeToken s) := by
  unfold SafeToken
  infer_instance

instance (item : PlayItem) : Decidable (ItemSafe item) := by
  unfold ItemSafe
  infer_instance

instance (l : List Char) : Decidable (LineOK l) := by
  unfold LineOK
  infer_instance

/-- A store file as the writers produce it: every line followed by one
newline. -/
def joinLines (ls : List (List Char)) : List Char :=
  (ls.map (fun l => l ++ ['\n'])).flatten

/-- A well-formed store: a header line followed by event lines, each line
`LineOK` and newline-terminated. -/
def WFStore (content : String) : Prop :=
  ∃ ls : List (List Char), ls ≠ [] ∧ (∀ l ∈ ls, LineOK l) ∧ content.data = joinLines ls

/-! ### Structure of `splitNl`, `trimChars`, `dropTrailingWS` -/

theorem splitNl_append_newline (l rest : List Char) (h : '\n' ∉ l) :
    splitNl (l ++ '\n' :: rest) = l :: splitNl rest := by
  induction l with
  | nil => simp [splitNl]
  | cons c t ih =>
    have hc : c ≠ '\n' := fun hh => h (by simp [hh])
    have ht : '\n' ∉ t := fun hh => h (by simp [hh])
    simp only [List.cons_append, splitNl, if_neg hc, List.append_eq, ih ht]

theorem splitNl_no_newline (l : List Char) (h : '\n' ∉ l) : splitNl l = [l] := by
  induction l with
  | nil => rfl
  | cons c t ih =>
    have hc : c ≠ '\n' := fun hh => h (by simp [hh])
    have ht : '\n' ∉ t := fun hh => h (by simp [hh])
    simp only [splitNl, if_neg hc, ih ht]

theorem joinLines_cons (l : List Char) (ls : List (List Char)) :
    joinLines (l :: ls) = l ++ '\n' :: joinLines ls := by
  simp [joinLines]

theorem splitNl_joinLines (ls : List (List Char)) (h : ∀ l ∈ ls, '\n' ∉ l) :
    splitNl (joinLines ls) = ls ++ [[]] := by
  induction ls with
  | nil => rfl
  | cons l t ih =>
    rw [joinLines_cons, splitNl_append_newline l _ (h l (by simp)),
      ih (fun x hx => h x (by simp [hx]))]
    rfl

theorem trimChars_eq_nil_iff (l : List Char) :
    trimChars l = [] ↔ ∀ c ∈ l, c.isWhitespace := by
  unfold trimChars dropTrailingWS
  rw [List.reverse_eq_nil_iff, List.dropWhile_eq_nil_iff]
  constructor
  · intro h c hc
    by_cases hmem : c ∈ l.dropWhile Char.isWhitespace
    · exact h c (by simpa using hmem)
    · have hsplit := List.takeWhile_append_dropWhile (p := Char.isWhitespace) (l := l)
      have : c ∈ l.takeWhile Char.isWhitespace ++ l.dropWhile Char.isWhitespace := by
        rw [hsplit]; exact hc
      rcases List.mem_append.mp this with h1 | h1
      · exact List.mem_takeWhile_imp h1
      · exact absurd h1 hmem
  · intro h c hc
    refine h c ?_
    have := List.dropWhile_sublist (l := l) (p := Char.isWhitespace)
    exact this.mem (by simpa using hc)

theorem csvLines_mk_joinLines (ls : List (List Char))
    (h : ∀ l ∈ ls, '\n' ∉ l ∧ trimChars l ≠ []) :
    csvLines (String.mk (joinLines ls)) = ls := by
  unfold csvLines
  rw [show (String.mk (joinLines ls)).data = joinLines ls from rfl,
    splitNl_joinLines ls (fun l hl => (h l hl).1), List.filter_append]
  have h1 : List.filter (fun l => !(trimChars l).isEmpty) [([] : List Char)] = [] := by
    simp [trimChars, dropTrailingWS]
  have h2 : List.filter (fun l => !(trimChars l).isEmpty) ls = ls := by
    rw [List.filter_eq_self]
    intro l hl
    simpa [List.isEmpty_iff] using (h l hl).2
  rw [h1, h2, List.append_nil]

theorem dropTrailingWS_snoc (x : List Char) (c : Char) (h : ¬c.isWhitespace) :
    dropTrailingWS (x ++ [c]) = x ++ [c] := by
  unfold dropTrailingWS
  rw [List.reverse_append, List.reverse_singleton, List.singleton_append,
    List.dropWhile_cons_of_neg (by simpa using h), List.reverse_cons, List.reverse_reverse]

theorem dropTrailingWS_snoc_newline (x : List Char) (c : Char) (h : ¬c.isWhitespace) :
    dropTrailingWS ((x ++ [c]) ++ ['\n']) = x ++ [c] := by
  unfold dropTrailingWS
  rw [List.reverse_append, List.reverse_singleton, List.singleton_append,
    List.dropWhile_cons_of_pos (by decide), List.reverse_append, List.reverse_singleton,
    List.singleton_append, List.dropWhile_cons_of_neg (by simpa using h),
    List.reverse_cons, List.reverse_reverse]

theorem lineOK_concat (l : List Char) (h : LineOK l) :
    ∃ x c, l = x ++ [c] ∧ ¬c.isWhitespace := by
  obtain ⟨hnl, hblank, htrim⟩ := h
  have hne : l ≠ [] := by
    intro hh
    exact hblank (by simp [hh, trimChars, dropTrailingWS])
  rcases List.eq_nil_or_concat l with hnil | ⟨x, c, hxc0⟩
  · exact absurd hnil hne
  have hxc : l = x ++ [c] := by simpa [List.concat_eq_append] using hxc0
  refine ⟨x, c, hxc, fun hws => ?_⟩
  have : dropTrailingWS (x ++ [c]) = x ++ [c] := hxc ▸ htrim
  unfold dropTrailingWS at this
  rw [List.reverse_append, List.reverse_singleton, List.singleton_append,
    List.dropWhile_cons_of_pos (by simpa using hws)] at this
  have hlen := congrArg List.length this
  simp only [List.length_reverse, List.length_append, List.length_singleton] at hlen
  have hsub := (List.dropWhile_sublist (l := x.reverse)
    (p := Char.isWhitespace)).length_le
  simp only [List.length_reverse] at hsub
  omega

end SpotifyStats

namespace SpotifyStats

theorem joinNl_cons_cons (l g : List Char) (t : List (List Char)) :
    joinNl (l :: g :: t) = l ++ '\n' :: joinNl (g :: t) := rfl

theorem joinLines_eq_joinNl (ls : List (List Char)) (h : ls ≠ []) :
    joinLines ls = joinNl ls ++ ['\n'] := by
  induction ls with
  | nil => exact absurd rfl h
  | cons l t ih =>
    cases t with
    | nil => simp [joinLines, joinNl]
    | cons g u =>
      rw [joinLines_cons, ih (by simp), joinNl_cons_cons]
      simp

theorem joinNl_append (ls1 ls2 : List (List Char)) (h1 : ls1 ≠ []) (h2 : ls2 ≠ []) :
    joinNl (ls1 ++ ls2) = joinNl ls1 ++ '\n' :: joinNl ls2 := by
  induction ls1 with
  | nil => exact absurd rfl h1
  | cons l t ih =>
    cases t with
    | nil =>
      cases ls2 with
      | nil => exact absurd rfl h2
      | cons g u => rw [List.singleton_append, joinNl_cons_cons]; rfl
    | cons g u =>
      rw [show (l :: g :: u) ++ ls2 = l :: g :: (u ++ ls2) by simp, joinNl_cons_cons,
        show g :: (u ++ ls2) = (g :: u) ++ ls2 from rfl, ih (by simp), joinNl_cons_cons,
        List.append_assoc]
      rfl

theorem joinNl_concat_nonws (ls : List (List Char)) (hne : ls ≠ [])
    (hok : ∀ l ∈ ls, LineOK l) :
    ∃ x c, joinNl ls = x ++ [c] ∧ ¬c.isWhitespace := by
  induction ls with
  | nil => exact absurd rfl hne
  | cons l t ih =>
    cases t with
    | nil =>
      obtain ⟨x, c, hxc, hc⟩ := lineOK_concat l (hok l (by simp))
      exact ⟨x, c, by simpa [joinNl] using hxc, hc⟩
    | cons g u =>
      obtain ⟨x, c, hxc, hc⟩ := ih (by simp) (fun a ha => hok a (by simp [ha]))
      refine ⟨l ++ '\n' :: x, c, ?_, hc⟩
      rw [joinNl_cons_cons, hxc]
      simp

theorem dropTrailingWS_joinLines (ls : List (List Char)) (hne : ls ≠ [])
    (hok : ∀ l ∈ ls, LineOK l) :
    dropTrailingWS (joinLines ls) = joinNl ls := by
  obtain ⟨x, c, hxc, hc⟩ := joinNl_concat_nonws ls hne hok
  rw [joinLines_eq_joinNl ls hne, hxc, dropTrailingWS_snoc_newline x c hc, ← hxc]

end SpotifyStats

namespace SpotifyStats

/-! ### Safety of the written line -/

theorem natCharsAux_digitChar (fuel : Nat) :
    ∀ (n : Nat), ∀ c ∈ natCharsAux fuel n, ∃ d, d < 10 ∧ c = Nat.digitChar d := by
  induction fuel with
  | zero => intro n c hc; simp [natCharsAux] at hc
  | succ fuel ih =>
    intro n c hc
    by_cases h : n < 10
    · simp only [natCharsAux, if_pos h, List.mem_singleton] at hc
      exact ⟨n, h, hc⟩
    · simp only [natCharsAux, if_pos, if_neg h, List.mem_append, List.mem_singleton] at hc
      rcases hc with hc | hc
      · exact ih (n / 10) c hc
      · exact ⟨n % 10, Nat.mod_lt n (by omega), hc⟩

theorem digitChar_safe :
    ∀ d < 10, Nat.digitChar d ≠ ',' ∧ Nat.digitChar d ≠ '"' ∧
      Nat.digitChar d ≠ '\n' ∧ ¬(Nat.digitChar d).isWhitespace := by decide

theorem natChars_safe (n : Nat) :
    ∀ c ∈ natChars n, c ≠ ',' ∧ c ≠ '"' ∧ c ≠ '\n' ∧ ¬c.isWhitespace := by
  intro c hc
  obtain ⟨d, hd, hcd⟩ := natCharsAux_digitChar (n + 1) n c hc
  exact hcd ▸ digitChar_safe d hd

theorem resolvedPlayedAt_of_safe (now : String) (item : PlayItem)
    (h : SafeToken item.played_at) : resolvedPlayedAt now item = item.played_at := by
  unfold resolvedPlayedAt
  rw [if_neg h.1]

theorem encodeField_of_safe (f : List Char)
    (h : ',' ∉ f ∧ '"' ∉ f ∧ '\n' ∉ f) : encodeField f = f := by
  unfold encodeField
  rw [if_neg]
  simp [needsQuoting, h.1, h.2.1, h.2.2]

theorem mem_dateOf (c : Char) (p : String) (h : c ∈ (dateOf p).data) : c ∈ p.data := by
  unfold dateOf at h
  exact (List.takeWhile_sublist _).mem (by simpa using h)

theorem mem_doubleQuotes (c : Char) (f : List Char) (h : c ∈ doubleQuotes f) :
    c ∈ f ∨ c = '"' := by
  induction f with
  | nil => simp [doubleQuotes] at h
  | cons a t ih =>
    by_cases ha : a = '"'
    · subst ha
      rw [show doubleQuotes ('"' :: t) = '"' :: '"' :: doubleQuotes t by
        simp [doubleQuotes]] at h
      rcases List.mem_cons.mp h with h | h
      · exact Or.inr h
      · rcases List.mem_cons.mp h with h | h
        · exact Or.inr h
        · rcases ih h with hh | hh
          · exact Or.inl (List.mem_cons_of_mem _ hh)
          · exact Or.inr hh
    · rw [show doubleQuotes (a :: t) = a :: doubleQuotes t by simp [doubleQuotes, ha]] at h
      rcases List.mem_cons.mp h with h | h
      · exact Or.inl (by simp [h])
      · rcases ih h with hh | hh
        · exact Or.inl (List.mem_cons_of_mem _ hh)
        · exact Or.inr hh

theorem mem_encodeField (c : Char) (f : List Char) (h : c ∈ encodeField f) :
    c ∈ f ∨ c = '"' := by
  unfold encodeField at h
  by_cases hq : needsQuoting f
  · rw [if_pos hq] at h
    rcases List.mem_cons.mp h with h | h
    · exact Or.inr h
    · rcases List.mem_append.mp h with h | h
      · exact mem_doubleQuotes c f h
      · exact Or.inr (List.mem_singleton.mp h)
  · rw [if_neg hq] at h
    exact Or.inl h

theorem noNl_joinWith_artists (arts : List String) (h : ∀ a ∈ arts, NoNl a) :
    '\n' ∉ (joinWith "; " arts).data := by
  induction arts with
  | nil => simp [joinWith]
  | cons a t ih =>
    cases t with
    | nil => exact h a (by simp)
    | cons b u =>
      show '\n' ∉ (a ++ "; " ++ joinWith "; " (b :: u)).data
      rw [String.data_append, String.data_append]
      intro hmem
      rcases List.mem_append.mp hmem with hmem | hmem
      · rcases List.mem_append.mp hmem with hmem | hmem
        · exact h a (by simp) hmem
        · simp [show ("; " : String).data = [';', ' '] from rfl] at hmem
      · exact ih (fun x hx => h x (by simp [hx])) hmem

theorem mem_joinComma (c : Char) (fs : List (List Char)) (h : c ∈ joinComma fs) :
    (∃ f ∈ fs, c ∈ f) ∨ c = ',' := by
  induction fs with
  | nil => simp [joinComma] at h
  | cons f t ih =>
    cases t with
    | nil =>
      refine Or.inl ⟨f, by simp, ?_⟩
      simpa [joinComma] using h
    | cons g u =>
      rw [show joinComma (f :: g :: u) = f ++ ',' :: joinComma (g :: u) from rfl] at h
      rcases List.mem_append.mp h with hh | hh
      · exact Or.inl ⟨f, by simp, hh⟩
      · rcases List.mem_cons.mp hh with hh | hh
        · exact Or.inr hh
        · rcases ih hh with ⟨x, hx, hcx⟩ | hh
          · exact Or.inl ⟨x, by simp [hx], hcx⟩
          · exact Or.inr hh

theorem exists_joinComma_concat (fs : List (List Char)) (p : List Char) :
    ∃ x, joinComma (fs ++ [p]) = x ++ p := by
  induction fs with
  | nil => exact ⟨[], by simp [joinComma]⟩
  | cons f t ih =>
    obtain ⟨x, hx⟩ := ih
    cases t with
    | nil =>
      refine ⟨f ++ [','], ?_⟩
      rw [show (f :: []) ++ [p] = f :: p :: [] from rfl,
        show joinComma (f :: p :: []) = f ++ ',' :: joinComma (p :: []) from rfl]
      simp [joinComma]
    | cons g u =>
      refine ⟨f ++ ',' :: x, ?_⟩
      rw [show (f :: g :: u) ++ [p] = f :: ((g :: u) ++ [p]) from rfl,
        show joinComma (f :: ((g :: u) ++ [p])) =
          f ++ ',' :: joinComma ((g :: u) ++ [p]) by
            cases u <;> rfl,
        hx]
      simp

end SpotifyStats

namespace SpotifyStats

/-- The eight unescaped fields of the CSV line written for one item, in
file column order. -/
def itemFields (now : String) (item : PlayItem) : List (List Char) :=
  [(dateOf (resolvedPlayedAt now item)).data,
   item.track.id.data,
   item.track.name.data,
   (joinWith "; " item.track.artists).data,
   item.track.album.data,
   natChars item.track.duration_ms,
   natChars item.track.popularity,
   (resolvedPlayedAt now item).data]

theorem safeToken_fields (s : String) (h : SafeToken s) :
    ',' ∉ s.data ∧ '"' ∉ s.data ∧ '\n' ∉ s.data :=
  ⟨fun hm => (h.2 _ hm).1 rfl, fun hm => (h.2 _ hm).2.1 rfl, fun hm => (h.2 _ hm).2.2.1 rfl⟩

theorem natChars_fields (n : Nat) :
    ',' ∉ natChars n ∧ '"' ∉ natChars n ∧ '\n' ∉ natChars n :=
  ⟨fun hm => (natChars_safe n _ hm).1 rfl, fun hm => (natChars_safe n _ hm).2.1 rfl,
   fun hm => (natChars_safe n _ hm).2.2.1 rfl⟩

theorem dateOf_fields (p : String) (h : SafeToken p) :
    ',' ∉ (dateOf p).data ∧ '"' ∉ (dateOf p).data ∧ '\n' ∉ (dateOf p).data :=
  ⟨fun hm => (h.2 _ (mem_dateOf _ _ hm)).1 rfl,
   fun hm => (h.2 _ (mem_dateOf _ _ hm)).2.1 rfl,
   fun hm => (h.2 _ (mem_dateOf _ _ hm)).2.2.1 rfl⟩

theorem lineOfItem_encode (now : String) (item : PlayItem) (h : ItemSafe item) :
    lineOfItem now item = joinComma ((itemFields now item).map encodeField) := by
  obtain ⟨hid, hpa, hname, harts, halb⟩ := h
  unfold lineOfItem itemFields
  rw [resolvedPlayedAt_of_safe now item hpa]
  simp only [List.map]
  rw [encodeField_of_safe (dateOf item.played_at).data (dateOf_fields _ hpa),
    encodeField_of_safe item.track.id.data (safeToken_fields _ hid),
    encodeField_of_safe (natChars item.track.duration_ms) (natChars_fields _),
    encodeField_of_safe (natChars item.track.popularity) (natChars_fields _),
    encodeField_of_safe item.played_at.data (safeToken_fields _ hpa)]

theorem parse_lineOfItem (now : String) (item : PlayItem) (h : ItemSafe item) :
    parseAux (lineOfItem now item) false [] [] = itemFields now item := by
  rw [lineOfItem_encode now item h,
    parseAux_joinComma_encode (itemFields now item) [] (by simp [itemFields]),
    List.nil_append]

theorem keyOfLine_lineOfItem (now : String) (item : PlayItem) (h : ItemSafe item) :
    keyOfLine (lineOfItem now item) = some (keyOfItem now item) := by
  unfold keyOfLine
  rw [parse_lineOfItem now item h]
  rfl

theorem eventOfLine_lineOfItem (now : String) (item : PlayItem) (h : ItemSafe item) :
    eventOfLine (lineOfItem now item) =
      some (item.track.id.data, (resolvedPlayedAt now item).data) := by
  unfold eventOfLine
  rw [parse_lineOfItem now item h]
  rfl

theorem noNl_itemFields (now : String) (item : PlayItem) (h : ItemSafe item) :
    ∀ f ∈ itemFields now item, '\n' ∉ f := by
  obtain ⟨hid, hpa, hname, harts, halb⟩ := h
  intro f hf
  rw [itemFields, resolvedPlayedAt_of_safe now item hpa] at hf
  simp only [List.mem_cons, List.not_mem_nil, or_false] at hf
  rcases hf with hf | hf | hf | hf | hf | hf | hf | hf <;> subst hf
  · exact (dateOf_fields _ hpa).2.2
  · exact (safeToken_fields _ hid).2.2
  · exact hname
  · exact noNl_joinWith_artists _ harts
  · exact halb
  · exact (natChars_fields _).2.2
  · exact (natChars_fields _).2.2
  · exact (safeToken_fields _ hpa).2.2

theorem lineOK_lineOfItem (now : String) (item : PlayItem) (h : ItemSafe item) :
    LineOK (lineOfItem now item) := by
  have hpa := h.2.1
  refine ⟨?_, ?_, ?_⟩
  · intro hmem
    rw [lineOfItem_encode now item h] at hmem
    rcases mem_joinComma _ _ hmem with ⟨ef, hef, hcef⟩ | hcomma
    · obtain ⟨f, hf, hff⟩ := List.mem_map.mp hef
      rcases mem_encodeField _ _ (hff ▸ hcef) with hin | heq
      · exact noNl_itemFields now item h f hf hin
      · exact absurd heq (by decide)
    · exact absurd hcomma (by decide)
  · intro htrim
    have hcm : ',' ∈ lineOfItem now item := by
      rw [lineOfItem_encode now item h]
      obtain ⟨a, b, t, hab⟩ : ∃ a b t,
          (itemFields now item).map encodeField = a :: b :: t := ⟨_, _, _, rfl⟩
      rw [hab, show joinComma (a :: b :: t) = a ++ ',' :: joinComma (b :: t) from rfl]
      exact List.mem_append.mpr (Or.inr (List.mem_cons_self _ _))
    have := (trimChars_eq_nil_iff _).mp htrim ',' hcm
    exact absurd this (by decide)
  · have hpane : item.played_at.data ≠ [] := by
      intro hh
      have heta : item.played_at = String.mk item.played_at.data := rfl
      rw [hh] at heta
      exact hpa.1 heta
    rcases List.eq_nil_or_concat item.played_at.data with hh | ⟨y, c, hyc0⟩
    · exact absurd hh hpane
    have hyc : item.played_at.data = y ++ [c] := by
      simpa [List.concat_eq_append] using hyc0
    have hcw : ¬c.isWhitespace :=
      (hpa.2 c (by rw [hyc]; exact List.mem_append.mpr (Or.inr (by simp)))).2.2.2
    have hsplit : itemFields now item =
        (itemFields now item).take 7 ++ [item.played_at.data] := by
      rw [itemFields, resolvedPlayedAt_of_safe now item hpa]
      rfl
    obtain ⟨x, hx⟩ := exists_joinComma_concat
      (((itemFields now item).take 7).map encodeField) item.played_at.data
    have hline : lineOfItem now item = x ++ item.played_at.data := by
      rw [lineOfItem_encode now item h, hsplit, List.map_append]
      rw [show List.map encodeField [item.played_at.data] =
        [encodeField item.played_at.data] from rfl,
        encodeField_of_safe item.played_at.data (safeToken_fields _ hpa)]
      exact hx
    rw [hline, hyc, ← List.append_assoc]
    exact dropTrailingWS_snoc (x ++ y) c hcw

end SpotifyStats

namespace SpotifyStats

/-! ### Properties of the `tracks.forEach` loop -/

theorem addLoop_shift (now : String) (tracks : List PlayItem) (keys : List (List Char))
    (nl : List (List Char)) (n : Nat) :
    addLoop now tracks keys nl n =
      (nl ++ (addLoop now tracks keys [] 0).1, n + (addLoop now tracks keys [] 0).2) := by
  induction tracks generalizing keys nl n with
  | nil => simp [addLoop]
  | cons item rest ih =>
    by_cases hmem : keyOfItem now item ∈ keys
    · rw [addLoop, if_pos hmem, ih, addLoop, if_pos hmem]
    · rw [addLoop, if_neg hmem, ih, addLoop, if_neg hmem]
      simp only [List.nil_append, Nat.zero_add]
      rw [ih (keyOfItem now item :: keys) [lineOfItem now item] 1]
      simp [Nat.add_comm, Nat.add_assoc, Nat.add_left_comm]

theorem addLoop_skip (now : String) (tracks : List PlayItem) (keys : List (List Char))
    (nl : List (List Char)) (n : Nat)
    (h : ∀ i ∈ tracks, keyOfItem now i ∈ keys) :
    addLoop now tracks keys nl n = (nl, n) := by
  induction tracks with
  | nil => rfl
  | cons item rest ih =>
    rw [addLoop, if_pos (h item (by simp))]
    exact ih (fun i hi => h i (by simp [hi]))

theorem addLoop_count (now : String) (tracks : List PlayItem) (keys : List (List Char)) :
    (addLoop now tracks keys [] 0).2 = (addLoop now tracks keys [] 0).1.length := by
  induction tracks generalizing keys with
  | nil => rfl
  | cons item rest ih =>
    by_cases hmem : keyOfItem now item ∈ keys
    · rw [addLoop, if_pos hmem, ih]
    · rw [addLoop, if_neg hmem]
      simp only [List.nil_append, Nat.zero_add]
      rw [addLoop_shift now rest (keyOfItem now item :: keys) [lineOfItem now item] 1]
      simp [ih, Nat.add_comm]

theorem addLoop_lines (now : String) (tracks : List PlayItem) (keys : List (List Char))
    (l : List Char) (h : l ∈ (addLoop now tracks keys [] 0).1) :
    ∃ i ∈ tracks, l = lineOfItem now i := by
  induction tracks generalizing keys with
  | nil => simp [addLoop] at h
  | cons item rest ih =>
    by_cases hmem : keyOfItem now item ∈ keys
    · rw [addLoop, if_pos hmem] at h
      obtain ⟨i, hi, hl⟩ := ih _ h
      exact ⟨i, by simp [hi], hl⟩
    · rw [addLoop, if_neg hmem] at h
      simp only [List.nil_append, Nat.zero_add] at h
      rw [addLoop_shift now rest (keyOfItem now item :: keys) [lineOfItem now item] 1] at h
      rcases List.mem_append.mp h with hh | hh
      · exact ⟨item, by simp, (List.mem_singleton.mp hh)⟩
      · obtain ⟨i, hi, hl⟩ := ih _ hh
        exact ⟨i, by simp [hi], hl⟩

theorem addLoop_mem (now : String) (tracks : List PlayItem) (keys : List (List Char))
    (hsafe : ∀ i ∈ tracks, ItemSafe i) :
    ∀ i ∈ tracks, keyOfItem now i ∈
      keys ++ (addLoop now tracks keys [] 0).1.filterMap keyOfLine := by
  induction tracks generalizing keys with
  | nil => simp
  | cons item rest ih =>
    intro i hi
    by_cases hmem : keyOfItem now item ∈ keys
    · rw [addLoop, if_pos hmem]
      rcases List.mem_cons.mp hi with hii | hii
      · subst hii
        exact List.mem_append.mpr (Or.inl hmem)
      · exact ih keys (fun j hj => hsafe j (by simp [hj])) i hii
    · rw [addLoop, if_neg hmem]
      simp only [List.nil_append, Nat.zero_add]
      rw [addLoop_shift now rest (keyOfItem now item :: keys) [lineOfItem now item] 1]
      have hkl : keyOfLine (lineOfItem now item) = some (keyOfItem now item) :=
        keyOfLine_lineOfItem now item (hsafe item (by simp))
      have hfm : ([lineOfItem now item] ++
          (addLoop now rest (keyOfItem now item :: keys) [] 0).1).filterMap keyOfLine =
          keyOfItem now item ::
            (addLoop now rest (keyOfItem now item :: keys) [] 0).1.filterMap keyOfLine := by
        rw [List.filterMap_append]
        simp [List.filterMap_cons, hkl]
      rw [show [lineOfItem now item] ++
          (addLoop now rest (keyOfItem now item :: keys) [] 0).1 =
          ([lineOfItem now item] ++
            (addLoop now rest (keyOfItem now item :: keys) [] 0).1) from rfl, hfm]
      rcases List.mem_cons.mp hi with hii | hii
      · subst hii
        exact List.mem_append.mpr (Or.inr (List.mem_cons_self _ _))
      · have := ih (keyOfItem now item :: keys) (fun j hj => hsafe j (by simp [hj])) i hii
        rcases List.mem_append.mp this with hh | hh
        · rcases List.mem_cons.mp hh with hh | hh
          · exact List.mem_append.mpr (Or.inr (by simp [hh]))
          · exact List.mem_append.mpr (Or.inl hh)
        · exact List.mem_append.mpr (Or.inr (List.mem_cons_of_mem _ hh))

theorem addLoop_nodup (now : String) (tracks : List PlayItem) (keys : List (List Char))
    (hsafe : ∀ i ∈ tracks, ItemSafe i) (hnd : keys.Nodup) :
    (keys ++ (addLoop now tracks keys [] 0).1.filterMap keyOfLine).Nodup := by
  induction tracks generalizing keys with
  | nil => simpa [addLoop]
  | cons item rest ih =>
    by_cases hmem : keyOfItem now item ∈ keys
    · rw [addLoop, if_pos hmem]
      exact ih keys (fun j hj => hsafe j (by simp [hj])) hnd
    · rw [addLoop, if_neg hmem]
      simp only [List.nil_append, Nat.zero_add]
      rw [addLoop_shift now rest (keyOfItem now item :: keys) [lineOfItem now item] 1]
      have hkl : keyOfLine (lineOfItem now item) = some (keyOfItem now item) :=
        keyOfLine_lineOfItem now item (hsafe item (by simp))
      have hfm : ([lineOfItem now item] ++
          (addLoop now rest (keyOfItem now item :: keys) [] 0).1).filterMap keyOfLine =
          keyOfItem now item ::
            (addLoop now rest (keyOfItem now item :: keys) [] 0).1.filterMap keyOfLine := by
        rw [List.filterMap_append]
        simp [List.filterMap_cons, hkl]
      rw [hfm]
      have hih := ih (keyOfItem now item :: keys)
        (fun j hj => hsafe j (by simp [hj])) (by simp [hnd, hmem])
      exact List.perm_middle.symm.nodup hih

end SpotifyStats

namespace SpotifyStats

/-! ### The merge against a well-formed store -/

theorem csvLines_of_WF (S : String) (ls : List (List Char)) (hok : ∀ l ∈ ls, LineOK l)
    (hdata : S.data = joinLines ls) : csvLines S = ls := by
  have hstep : csvLines S = csvLines (String.mk (joinLines ls)) := by
    unfold csvLines
    rw [hdata]
  rw [hstep, csvLines_mk_joinLines ls (fun l hl => ⟨(hok l hl).1, (hok l hl).2.1⟩)]

theorem keyOfItem_eq (now now2 : String) (item : PlayItem)
    (h : SafeToken item.played_at) : keyOfItem now item = keyOfItem now2 item := by
  unfold keyOfItem
  rw [resolvedPlayedAt_of_safe now item h, resolvedPlayedAt_of_safe now2 item h]

theorem addTracksToCSVFile_eq (now : String) (tracks : List PlayItem) (S : String) :
    addTracksToCSVFile now tracks S =
      (if 0 < (addLoop now tracks (existingKeys S) [] 0).1.length then
        (String.mk (dropTrailingWS S.data ++ '\n' ::
          (joinNl (addLoop now tracks (existingKeys S) [] 0).1 ++ ['\n'])),
         (addLoop now tracks (existingKeys S) [] 0).2)
      else (S, (addLoop now tracks (existingKeys S) [] 0).2)) := rfl

theorem merge_result (now : String) (tracks : List PlayItem) (S : String)
    (ls : List (List Char)) (hls : ls ≠ []) (hok : ∀ l ∈ ls, LineOK l)
    (hdata : S.data = joinLines ls) (hsafe : ∀ i ∈ tracks, ItemSafe i) :
    csvLines (addTracksToCSVFile now tracks S).1 =
      ls ++ (addLoop now tracks (existingKeys S) [] 0).1 ∧
    (addTracksToCSVFile now tracks S).2 =
      (addLoop now tracks (existingKeys S) [] 0).1.length := by
  rw [addTracksToCSVFile_eq]
  by_cases hnl : 0 < (addLoop now tracks (existingKeys S) [] 0).1.length
  · rw [if_pos hnl]
    have hne : (addLoop now tracks (existingKeys S) [] 0).1 ≠ [] := by
      intro hh
      rw [hh] at hnl
      simp at hnl
    have hlok : ∀ l ∈ (addLoop now tracks (existingKeys S) [] 0).1, LineOK l := by
      intro l hl
      obtain ⟨i, hi, hli⟩ := addLoop_lines now tracks (existingKeys S) l hl
      exact hli ▸ lineOK_lineOfItem now i (hsafe i hi)
    have hdt : dropTrailingWS S.data = joinNl ls := by
      rw [hdata]
      exact dropTrailingWS_joinLines ls hls hok
    have hcontent : dropTrailingWS S.data ++ '\n' ::
        (joinNl (addLoop now tracks (existingKeys S) [] 0).1 ++ ['\n']) =
        joinLines (ls ++ (addLoop now tracks (existingKeys S) [] 0).1) := by
      rw [hdt, joinLines_eq_joinNl _ (by simp [hls]),
        joinNl_append ls _ hls hne]
      simp
    constructor
    · show csvLines (String.mk _) = _
      rw [hcontent, csvLines_mk_joinLines]
      intro l hl
      rcases List.mem_append.mp hl with hh | hh
      · exact ⟨(hok l hh).1, (hok l hh).2.1⟩
      · exact ⟨(hlok l hh).1, (hlok l hh).2.1⟩
    · show (addLoop now tracks (existingKeys S) [] 0).2 = _
      exact addLoop_count now tracks (existingKeys S)
  · rw [if_neg hnl]
    have hempty : (addLoop now tracks (existingKeys S) [] 0).1 = [] := by
      rcases List.eq_nil_or_concat (addLoop now tracks (existingKeys S) [] 0).1 with hh | hh
      · exact hh
      · obtain ⟨x, c, hxc⟩ := hh
        rw [hxc] at hnl
        simp at hnl
    constructor
    · rw [hempty, List.append_nil]
      exact csvLines_of_WF S ls hok hdata
    · show (addLoop now tracks (existingKeys S) [] 0).2 = _
      rw [addLoop_count now tracks (existingKeys S)]

theorem merge_existingKeys (now : String) (tracks : List PlayItem) (S : String)
    (ls : List (List Char)) (hls : ls ≠ []) (hok : ∀ l ∈ ls, LineOK l)
    (hdata : S.data = joinLines ls) (hsafe : ∀ i ∈ tracks, ItemSafe i) :
    existingKeys (addTracksToCSVFile now tracks S).1 =
      existingKeys S ++
        (addLoop now tracks (existingKeys S) [] 0).1.filterMap keyOfLine := by
  have h1 := (merge_result now tracks S ls hls hok hdata hsafe).1
  have hS : csvLines S = ls := csvLines_of_WF S ls hok hdata
  cases ls with
  | nil => exact absurd rfl hls
  | cons l0 ls' =>
    have hK : existingKeys S = List.filterMap keyOfLine ls' := by
      unfold existingKeys
      rw [hS]
      rfl
    unfold existingKeys
    rw [h1, hS]
    simp [List.filterMap_append, hK]

theorem addTracks_of_skip (now : String) (tracks : List PlayItem) (S : String)
    (h : addLoop now tracks (existingKeys S) [] 0 = ([], 0)) :
    addTracksToCSVFile now tracks S = (S, 0) := by
  rw [addTracksToCSVFile_eq, h]
  simp

end SpotifyStats

namespace SpotifyStats

/-! ## Claims C1, C2, C7 -/

/-- A batch item whose track name embeds a newline: legal per the data
model, but it corrupts the line-oriented store. -/
def nlItem : PlayItem := ⟨⟨"X", "a\nb", ["A"], "B", 1, 1⟩, "2020-01-02T03:04:05.000Z"⟩

/-- A CSV-safe sample item. -/
def okItem : PlayItem := ⟨⟨"X", "na", ["A"], "B", 180000, 7⟩, "2020-01-02T03:04:05.000Z"⟩

/-- A CSV-safe sample item with the same entity id as `okItem` but a
different timestamp. -/
def okItem2 : PlayItem := ⟨⟨"X", "nb", ["A"], "B", 120000, 7⟩, "2020-01-02T04:04:05.000Z"⟩

/-- The store holding exactly the header row is well formed. -/
theorem wf_HEADERS : WFStore HEADERS :=
  ⟨["date,trackId,trackName,artistName,albumName,durationMs,popularity,timestamp".data],
   by decide, by decide, by decide⟩

/-- C1 (counterexample): merging the same one-event batch twice is not
idempotent when the track name contains a newline — the written line is
split in two by the line-oriented reader, its key is lost, and the second
merge re-adds the event (`addedCount = 1`, store grows again). -/
theorem c1_idempotent_counterexample :
    (addTracksToCSVFile "now" [nlItem]
      (addTracksToCSVFile "now" [nlItem] HEADERS).1).2 = 1 ∧
    (addTracksToCSVFile "now" [nlItem]
        (addTracksToCSVFile "now" [nlItem] HEADERS).1).1 ≠
      (addTracksToCSVFile "now" [nlItem] HEADERS).1 ∧
    (1 : Nat) ≠ 0 := by
  refine ⟨by decide, by decide, by decide⟩

/-- C1 (amended): for every well-formed store (header line plus
newline-free, non-blank, trailing-whitespace-free lines) and every batch
whose events have CSV-safe ids and timestamps and newline-free text fields,
merging the batch twice (under any ambient clocks) leaves the store exactly
as one merge does and the second call returns `addedCount = 0`. -/
theorem c1_merge_idempotent (now now2 : String) (tracks : List PlayItem) (S : String)
    (hWF : WFStore S) (hsafe : ∀ i ∈ tracks, ItemSafe i) :
    addTracksToCSVFile now2 tracks (addTracksToCSVFile now tracks S).1 =
      ((addTracksToCSVFile now tracks S).1, 0) := by
  obtain ⟨ls, hls, hok, hdata⟩ := hWF
  have hkeys := merge_existingKeys now tracks S ls hls hok hdata hsafe
  have hmem := addLoop_mem now tracks (existingKeys S) hsafe
  have hmem2 : ∀ i ∈ tracks,
      keyOfItem now2 i ∈ existingKeys (addTracksToCSVFile now tracks S).1 := by
    intro i hi
    rw [hkeys, keyOfItem_eq now2 now i (hsafe i hi).2.1]
    exact hmem i hi
  exact addTracks_of_skip now2 tracks (addTracksToCSVFile now tracks S).1
    (addLoop_skip now2 tracks _ [] 0 hmem2)

/-- C1 (witness): the amended idempotence at a concrete safe item merged
into the header-only store. -/
theorem c1_merge_idempotent_witness :
    addTracksToCSVFile "now2" [okItem]
        (addTracksToCSVFile "now" [okItem] HEADERS).1 =
      ((addTracksToCSVFile "now" [okItem] HEADERS).1, 0) :=
  c1_merge_idempotent "now" "now2" [okItem] HEADERS wf_HEADERS (by decide)

theorem existingKeys_eq_map (content : String) :
    existingKeys content =
      (storedEvents content).map (fun p => p.1 ++ '-' :: p.2) := by
  unfold existingKeys storedEvents
  rw [List.map_filterMap]
  congr 1
  funext l
  unfold keyOfLine eventOfLine
  by_cases h : 8 ≤ (parseAux l false [] []).length
  · simp [h]
  · simp [h]

/-- C2 (counterexample): a batch holding exactly two copies of an event
whose key is already stored adds nothing: `addedCount = 0`, not the claimed
`1` (the initial store satisfies key-uniqueness). -/
theorem c2_dedup_counterexample :
    (existingKeys (addTracksToCSVFile "now" [okItem] HEADERS).1).Nodup ∧
    (addTracksToCSVFile "now" [okItem, okItem]
      (addTracksToCSVFile "now" [okItem] HEADERS).1).2 = 0 ∧
    (0 : Nat) ≠ 1 := by
  refine ⟨by decide, by decide, by decide⟩

/-- C2 (amended): for every well-formed store with pairwise-distinct stored
keys and every CSV-safe batch — batches may repeat keys — after the merge
no two parsed stored events share the same `(entityId, occurredAt)` pair;
and merging a batch of exactly two events with identical id and timestamp
whose key is not yet stored adds exactly one event (`addedCount = 1`). -/
theorem c2_dedup_invariant (now : String) (tracks : List PlayItem) (S : String)
    (hWF : WFStore S) (hnd : (existingKeys S).Nodup)
    (hsafe : ∀ i ∈ tracks, ItemSafe i) :
    (storedEvents (addTracksToCSVFile now tracks S).1).Nodup ∧
    (∀ e1 e2 : PlayItem, tracks = [e1, e2] → e1.track.id = e2.track.id →
      e1.played_at = e2.played_at → keyOfItem now e1 ∉ existingKeys S →
      (addTracksToCSVFile now tracks S).2 = 1) := by
  obtain ⟨ls, hls, hok, hdata⟩ := hWF
  constructor
  · have hkeys := merge_existingKeys now tracks S ls hls hok hdata hsafe
    have hnodup := addLoop_nodup now tracks (existingKeys S) hsafe hnd
    have hres : (existingKeys (addTracksToCSVFile now tracks S).1).Nodup := by
      rw [hkeys]
      exact hnodup
    rw [existingKeys_eq_map] at hres
    exact hres.of_map
  · intro e1 e2 htr hid hpa hfresh
    subst htr
    have hk : keyOfItem now e2 = keyOfItem now e1 := by
      unfold keyOfItem
      rw [resolvedPlayedAt_of_safe now e1 (hsafe e1 (by simp)).2.1,
        resolvedPlayedAt_of_safe now e2 (hsafe e2 (by simp)).2.1, hid, hpa]
    have hres : addLoop now [e1, e2] (existingKeys S) [] 0 =
        ([lineOfItem now e1], 1) := by
      rw [addLoop, if_neg hfresh]
      simp only [List.nil_append, Nat.zero_add]
      rw [addLoop, if_pos (by rw [hk]; exact List.mem_cons_self _ _)]
      rfl
    rw [addTracksToCSVFile_eq, hres]
    rfl

/-- C2 (witness): the invariant and the fresh duplicate-pair case at a
concrete batch over the header-only store. -/
theorem c2_dedup_invariant_witness :
    (storedEvents (addTracksToCSVFile "now" [okItem, okItem] HEADERS).1).Nodup ∧
    (addTracksToCSVFile "now" [okItem, okItem] HEADERS).2 = 1 :=
  ⟨(c2_dedup_invariant "now" [okItem, okItem] HEADERS wf_HEADERS (by decide)
      (by decide)).1,
   (c2_dedup_invariant "now" [okItem, okItem] HEADERS wf_HEADERS (by decide)
      (by decide)).2 okItem okItem rfl rfl rfl (by decide)⟩

/-- C7 (counterexample): a newline inside a track name makes one added
event occupy two physical lines, so the store size grows by 2 while
`addedCount = 1` — size accounting fails on the unrestricted claim. -/
theorem c7_size_counterexample :
    recordCount (addTracksToCSVFile "now" [nlItem] HEADERS).1 = 2 ∧
    (addTracksToCSVFile "now" [nlItem] HEADERS).2 = 1 ∧
    recordCount HEADERS = 0 ∧
    (2 : Nat) ≠ 0 + 1 := by
  refine ⟨by decide, by decide, by decide, by decide⟩

/-- C7 (amended): for every well-formed store and every CSV-safe batch, the
store size after a merge equals the size before plus the returned
`addedCount`; and a batch of two events with equal id, distinct timestamps,
neither already stored, returns `addedCount = 2` (both persisted). -/
theorem c7_merge_size_accounting (now : String) (tracks : List PlayItem) (S : String)
    (hWF : WFStore S) (hsafe : ∀ i ∈ tracks, ItemSafe i) :
    recordCount (addTracksToCSVFile now tracks S).1 =
      recordCount S + (addTracksToCSVFile now tracks S).2 ∧
    (∀ e1 e2 : PlayItem, tracks = [e1, e2] → e1.track.id = e2.track.id →
      e1.played_at ≠ e2.played_at → keyOfItem now e1 ∉ existingKeys S →
      keyOfItem now e2 ∉ existingKeys S →
      (addTracksToCSVFile now tracks S).2 = 2) := by
  obtain ⟨ls, hls, hok, hdata⟩ := hWF
  obtain ⟨h1, h2⟩ := merge_result now tracks S ls hls hok hdata hsafe
  constructor
  · unfold recordCount
    rw [h1, h2, csvLines_of_WF S ls hok hdata, List.length_append]
    have : 1 ≤ ls.length := by
      cases ls with
      | nil => exact absurd rfl hls
      | cons a t => simp
    omega
  · intro e1 e2 htr hid hpa hfresh1 hfresh2
    subst htr
    have hkne : keyOfItem now e2 ≠ keyOfItem now e1 := by
      intro heq
      unfold keyOfItem at heq
      rw [resolvedPlayedAt_of_safe now e1 (hsafe e1 (by simp)).2.1,
        resolvedPlayedAt_of_safe now e2 (hsafe e2 (by simp)).2.1, hid] at heq
      have hdd := List.append_cancel_left heq
      have hdd2 : e2.played_at.data = e1.played_at.data := List.cons.inj hdd |>.2
      have : e2.played_at = e1.played_at := by
        have he2 : e2.played_at = String.mk e2.played_at.data := rfl
        rw [hdd2] at he2
        exact he2
      exact hpa this.symm
    have hres : addLoop now [e1, e2] (existingKeys S) [] 0 =
        ([lineOfItem now e1, lineOfItem now e2], 2) := by
      rw [addLoop, if_neg hfresh1]
      simp only [List.nil_append, Nat.zero_add]
      rw [addLoop, if_neg (by
        intro hmem
        rcases List.mem_cons.mp hmem with hh | hh
        · exact hkne hh
        · exact hfresh2 hh)]
      rfl
    rw [addTracksToCSVFile_eq, hres]
    rfl

/-- C7 (witness): the size accounting and the distinct-timestamp retention
at a concrete two-event batch over the header-only store. -/
theorem c7_merge_size_accounting_witness :
    recordCount (addTracksToCSVFile "now" [okItem, okItem2] HEADERS).1 =
      recordCount HEADERS +
        (addTracksToCSVFile "now" [okItem, okItem2] HEADERS).2 ∧
    (addTracksToCSVFile "now" [okItem, okItem2] HEADERS).2 = 2 :=
  ⟨(c7_merge_size_accounting "now" [okItem, okItem2] HEADERS wf_HEADERS (by decide)).1,
   (c7_merge_size_accounting "now" [okItem, okItem2] HEADERS wf_HEADERS
      (by decide)).2 okItem okItem2 rfl rfl (by decide) (by decide) (by decide)⟩

end SpotifyStats
